import Mathlib

/-!
# btcupdown — formal model of the trading core

A shallow embedding of the btcupdown server's trading core, translated from
the JavaScript sources:

* `db-trading.js` (store primitives: orders, trades, positions, balances),
* `trading-engine.js` (class `TradingEngine`: normalisation, order book,
  matching, placement, cancel, stop triggers, settlement),
* `websocket-server.js` (class `PriceWebSocketServer`: market lifecycle,
  minute-boundary controller),
* `aggregator.js` + the two `config.js` weight tables (price aggregation).

Conventions of the embedding:

* All monetary amounts are integer **cents** (`Int`).  The JavaScript code
  passes dollar amounts such as `(costPerShare * shares) / 100` to a
  NUMERIC(12,2) column; since every such amount is an integer number of
  cents, the cent-integer representation is exact.
* Share counts and book prices are `Int` (SQL INTEGER columns).
* Identifiers and timestamps are `Nat`.
* Database state is explicit (`Db`), threaded through each operation;
  a JavaScript `throw` inside a transaction followed by `ROLLBACK` is an
  `Except.error` result that leaves the caller's state unchanged.
* Aggregator prices are exact rationals (`ℚ`); the JavaScript doubles
  are abstracted by exact arithmetic.
* WebSocket pushes, logging, and slug strings are not modelled; they do
  not affect any of the properties below.
-/

/-- User-facing order side (`side` column). -/
inductive Side where
  | buy
  | sell
deriving DecidableEq, Repr

/-- User-facing order outcome (`outcome` column). -/
inductive UserOutcome where
  | yes
  | no
deriving DecidableEq, Repr

/-- Normalised book side (`book_side` column). -/
inductive BookSide where
  | bid
  | ask
deriving DecidableEq, Repr

/-- `order_type` column. -/
inductive OrderType where
  | market_fak
  | market_fok
  | limit
  | stop_limit
deriving DecidableEq, Repr

/-- `status` column of `orders`. -/
inductive OrderStatus where
  | open_
  | partially_filled
  | filled
  | cancelled
  | stopped
  | expired
deriving DecidableEq, Repr

/-- The SQL text of a status, used in error messages. -/
def OrderStatus.text : OrderStatus → String
  | .open_ => "open"
  | .partially_filled => "partially_filled"
  | .filled => "filled"
  | .cancelled => "cancelled"
  | .stopped => "stopped"
  | .expired => "expired"

/-- Winning outcome of a settled round (`'up'` / `'down'`). -/
inductive WinOutcome where
  | up
  | down
deriving DecidableEq, Repr

/-- A row of the `orders` table. -/
structure OrderRow where
  id : Nat
  user_id : Nat
  round_start : Nat
  side : Side
  outcome : UserOutcome
  book_side : BookSide
  order_type : OrderType
  price : Int
  stop_price : Option Int
  shares : Int
  filled_shares : Int
  remaining_shares : Int
  cost_per_share : Int
  status : OrderStatus
  created_at : Nat
deriving DecidableEq, Repr

/-- A row of the `trades` table. -/
structure TradeRow where
  id : Nat
  round_start : Nat
  bid_order_id : Nat
  ask_order_id : Nat
  yes_user_id : Nat
  no_user_id : Nat
  price : Int
  shares : Int
deriving DecidableEq, Repr

/-- A row of the `positions` table (primary key `user_id × round_start`). -/
structure PositionRow where
  user_id : Nat
  round_start : Nat
  yes_shares : Int
  no_shares : Int
deriving DecidableEq, Repr

/-- The durable store: the tables touched by the trading engine, plus the
serial counters.  Balances are kept in integer cents. -/
structure Db where
  orders : List OrderRow
  trades : List TradeRow
  positions : List PositionRow
  balances : List (Nat × Int)
  nextOrderId : Nat
  nextTradeId : Nat
deriving DecidableEq, Repr

namespace Db

/-- `SELECT * FROM orders WHERE id = $1` (`getOrder`). -/
def getOrder (db : Db) (orderId : Nat) : Option OrderRow :=
  db.orders.find? (fun o => o.id = orderId)

/-- A user's balance in cents (missing user ↦ 0, only used for lookups). -/
def balanceOf (db : Db) (userId : Nat) : Int :=
  match db.balances.find? (fun p => p.1 = userId) with
  | some p => p.2
  | none => 0

/-- Replace a user's balance. -/
def setBalance (db : Db) (userId : Nat) (v : Int) : Db :=
  { db with balances := db.balances.map (fun p => if p.1 = userId then (p.1, v) else p) }

end Db

/-! ## `db-trading.js` — store primitives

Each function below is the translation of the identically-named function of
`db-trading.js`; the SQL statement it runs is quoted in the comment. -/

/-- The names exported by `module.exports` at the end of `db-trading.js`.
Any property access on the module outside this list yields `undefined`,
and calling it throws a `TypeError` at run time. -/
def dbTradingExports : List String :=
  ["insertOrder", "updateOrderFill", "cancelOrder", "cancelAllRoundOrders",
   "getOrder", "getUserOrders", "getOpenRoundOrders", "getStoppedRoundOrders",
   "activateStopOrder", "insertTrade", "getOrderTrades", "upsertPosition",
   "getPosition", "getAllPositions", "insertLiquidityProvision",
   "getTotalLiquidity", "deductBalance", "creditBalance",
   "getBalanceForUpdate", "pool"]

/-- Parameters of `insertOrder` (the `order` argument object). -/
structure InsertOrderParams where
  userId : Nat
  roundStart : Nat
  side : Side
  outcome : UserOutcome
  bookSide : BookSide
  orderType : OrderType
  price : Int
  stopPrice : Option Int
  shares : Int
  costPerShare : Int
  status : OrderStatus
deriving Repr

/-- `INSERT INTO orders (...) VALUES (..., $9, 0, $9, $10, $11) RETURNING *`:
`filled_shares` starts at 0 and `remaining_shares` at `shares`.
`createdAt` is supplied by the caller (the row's `NOW()`). -/
def insertOrder (p : InsertOrderParams) (createdAt : Nat) (db : Db) : OrderRow × Db :=
  let row : OrderRow :=
    { id := db.nextOrderId
      user_id := p.userId
      round_start := p.roundStart
      side := p.side
      outcome := p.outcome
      book_side := p.bookSide
      order_type := p.orderType
      price := p.price
      stop_price := p.stopPrice
      shares := p.shares
      filled_shares := 0
      remaining_shares := p.shares
      cost_per_share := p.costPerShare
      status := p.status
      created_at := createdAt }
  (row, { db with orders := db.orders ++ [row], nextOrderId := db.nextOrderId + 1 })

/-- The row-level effect of `updateOrderFill`'s UPDATE:
`filled_shares += q`, `remaining_shares -= q`,
`status = CASE WHEN remaining_shares - q = 0 THEN 'filled' ELSE 'partially_filled' END`
(the CASE reads the pre-update `remaining_shares`). -/
def updateOrderFillRow (q : Int) (o : OrderRow) : OrderRow :=
  { o with
    filled_shares := o.filled_shares + q
    remaining_shares := o.remaining_shares - q
    status := if o.remaining_shares - q = 0 then .filled else .partially_filled }

/-- `updateOrderFill(orderId, filledQty, client)`: applies
`updateOrderFillRow` to the row with the given id. -/
def updateOrderFill (orderId : Nat) (q : Int) (db : Db) : Db :=
  { db with orders := db.orders.map (fun o => if o.id = orderId then updateOrderFillRow q o else o) }

/-- `cancelOrder(orderId, userId)`: guarded
`UPDATE orders SET status = 'cancelled' WHERE id = $1 AND user_id = $2 AND
status IN ('open','partially_filled','stopped') RETURNING *`;
returns the updated row, or `none` if no row matched. -/
def cancelOrderDb (orderId userId : Nat) (db : Db) : Option OrderRow × Db :=
  match db.getOrder orderId with
  | none => (none, db)
  | some o =>
    if o.user_id = userId ∧
       (o.status = .open_ ∨ o.status = .partially_filled ∨ o.status = .stopped) then
      let o' := { o with status := OrderStatus.cancelled }
      (some o',
       { db with orders := db.orders.map (fun r => if r.id = orderId then o' else r) })
    else (none, db)

/-- Is a row in one of the statuses swept by settlement? -/
def isSettleable (o : OrderRow) : Bool :=
  o.status = .open_ ∨ o.status = .partially_filled ∨ o.status = .stopped

/-- `cancelAllRoundOrders(roundStart, client)`: snapshots the round's
open/partially_filled/stopped rows (original status intact), then marks
them all `'cancelled'`; returns the snapshot. -/
def cancelAllRoundOrders (roundStart : Nat) (db : Db) : List OrderRow × Db :=
  let snapshot := db.orders.filter (fun o => o.round_start = roundStart ∧ isSettleable o)
  (snapshot,
   { db with orders := db.orders.map (fun o =>
       if o.round_start = roundStart ∧ isSettleable o then
         { o with status := OrderStatus.cancelled }
       else o) })

/-- `activateStopOrder(orderId, client)`:
`UPDATE orders SET status = 'open' WHERE id = $1 AND status = 'stopped'`. -/
def activateStopOrderDb (orderId : Nat) (db : Db) : Db :=
  { db with orders := db.orders.map (fun o =>
      if o.id = orderId ∧ o.status = .stopped then { o with status := OrderStatus.open_ } else o) }

/-- Parameters of `insertTrade`. -/
structure InsertTradeParams where
  roundStart : Nat
  bidOrderId : Nat
  askOrderId : Nat
  yesUserId : Nat
  noUserId : Nat
  price : Int
  shares : Int
deriving Repr

/-- `insertTrade(trade, client)`: `INSERT INTO trades ... RETURNING *`. -/
def insertTrade (p : InsertTradeParams) (db : Db) : TradeRow × Db :=
  let row : TradeRow :=
    { id := db.nextTradeId
      round_start := p.roundStart
      bid_order_id := p.bidOrderId
      ask_order_id := p.askOrderId
      yes_user_id := p.yesUserId
      no_user_id := p.noUserId
      price := p.price
      shares := p.shares }
  (row, { db with trades := db.trades ++ [row], nextTradeId := db.nextTradeId + 1 })

/-- `getAllPositions(roundStart, client)`:
`SELECT user_id, yes_shares, no_shares FROM positions WHERE round_start = $1`. -/
def getAllPositions (roundStart : Nat) (db : Db) : List PositionRow :=
  db.positions.filter (fun p => p.round_start = roundStart)

/-- `deductBalance(userId, amount, client)`: guarded
`UPDATE users SET balance = balance - $2 WHERE id = $1 AND balance >= $2`;
throws `'Insufficient balance'` when no row matched.  `amount` in cents. -/
def deductBalance (userId : Nat) (amount : Int) (db : Db) : Except String Db :=
  match db.balances.find? (fun p => p.1 = userId) with
  | some p =>
    if p.2 ≥ amount then .ok (db.setBalance userId (p.2 - amount))
    else .error "Insufficient balance"
  | none => .error "Insufficient balance"

/-- `creditBalance(userId, amount, client)`:
`UPDATE users SET balance = balance + $2 WHERE id = $1`. -/
def creditBalance (userId : Nat) (amount : Int) (db : Db) : Db :=
  db.setBalance userId (db.balanceOf userId + amount)

/-! ## `trading-engine.js` — in-memory structures -/

/-- A resting entry of the in-memory order book (`BookEntry` typedef). -/
structure BookEntry where
  id : Nat
  userId : Nat
  price : Int
  remainingShares : Int
  costPerShare : Int
  bookSide : BookSide
  createdAt : Nat
deriving DecidableEq, Repr

/-- An element of the per-round `stops` list (`this.stops`). -/
structure StopEntry where
  id : Nat
  userId : Nat
  bookSide : BookSide
  price : Int
  stopPrice : Int
  remainingShares : Int
  costPerShare : Int
  side : Side
  outcome : UserOutcome
deriving DecidableEq, Repr

/-- One round's book: `{bids, asks}`, each kept sorted by the insert
functions (bids: price DESC then time ASC; asks: price ASC then time ASC). -/
structure Book where
  bids : List BookEntry
  asks : List BookEntry
deriving DecidableEq, Repr

/-- The engine's whole mutable state: the durable store plus the
per-round in-memory books and stop lists (`this.books`, `this.stops`). -/
structure EngineState where
  db : Db
  books : List (Nat × Book)
  stops : List (Nat × List StopEntry)
deriving DecidableEq, Repr

/-- `config.trading.maxSharesPerOrder` (config.js). -/
def maxSharesPerOrder : Int := 10000
/-- `config.trading.minPrice` (config.js). -/
def minPrice : Int := 1
/-- `config.trading.maxPrice` (config.js). -/
def maxPrice : Int := 99

/-- Result of `normalize`. -/
structure NormalizedOrder where
  bookSide : BookSide
  bookPrice : Int
  costPerShare : Int
deriving DecidableEq, Repr

namespace TradingEngine

/-- `TradingEngine.normalize(side, outcome, price)`: translate the
user-facing `(side, outcome, price)` triple to book coordinates. -/
def normalize (side : Side) (outcome : UserOutcome) (price : Int) : NormalizedOrder :=
  match side, outcome with
  | .buy, .yes => { bookSide := .bid, bookPrice := price, costPerShare := price }
  | .buy, .no => { bookSide := .ask, bookPrice := 100 - price, costPerShare := price }
  | .sell, .yes => { bookSide := .ask, bookPrice := price, costPerShare := 100 - price }
  | .sell, .no => { bookSide := .bid, bookPrice := 100 - price, costPerShare := 100 - price }

end TradingEngine

namespace EngineState

/-- `this.stops.set(roundStart, s)`: Map.set — overwrite or add. -/
def putStops (st : EngineState) (roundStart : Nat) (s : List StopEntry) : EngineState :=
  if (st.stops.find? (fun p => p.1 = roundStart)).isSome then
    { st with stops := st.stops.map (fun p => if p.1 = roundStart then (roundStart, s) else p) }
  else { st with stops := st.stops ++ [(roundStart, s)] }

/-- `initRound(roundStart)`: if no book exists for the round, create an
empty one and reset the round's stop list to `[]` (`this.stops.set`). -/
def initRound (st : EngineState) (roundStart : Nat) : EngineState :=
  if (st.books.find? (fun p => p.1 = roundStart)).isSome then st
  else
    ({ st with books := st.books ++ [(roundStart, ({ bids := [], asks := [] } : Book))] }).putStops
      roundStart []

/-- `this.books.delete(roundStart); this.stops.delete(roundStart)`
(step 4 of `settleRound`). -/
def eraseRound (st : EngineState) (roundStart : Nat) : EngineState :=
  { st with
    books := st.books.filter (fun p => p.1 ≠ roundStart)
    stops := st.stops.filter (fun p => p.1 ≠ roundStart) }

/-- The book stored for a round (empty if absent); `getBook` = `initRound`
followed by this lookup. -/
def bookFor (st : EngineState) (roundStart : Nat) : Book :=
  match st.books.find? (fun p => p.1 = roundStart) with
  | some p => p.2
  | none => { bids := [], asks := [] }

/-- The stop list stored for a round (empty if absent). -/
def stopsFor (st : EngineState) (roundStart : Nat) : List StopEntry :=
  match st.stops.find? (fun p => p.1 = roundStart) with
  | some p => p.2
  | none => []

/-- Overwrite a round's book (the in-place array mutations of the JS code). -/
def setBook (st : EngineState) (roundStart : Nat) (b : Book) : EngineState :=
  { st with books := st.books.map (fun p => if p.1 = roundStart then (roundStart, b) else p) }

/-- Overwrite a round's stop list (`this.stops.set(roundStart, ...)`). -/
def setStops (st : EngineState) (roundStart : Nat) (s : List StopEntry) : EngineState :=
  { st with stops := st.stops.map (fun p => if p.1 = roundStart then (roundStart, s) else p) }

end EngineState

namespace TradingEngine

/-- `insertBid(bids, entry)`: insert keeping price DESC, time ASC order
(skips entries with strictly higher price, or equal price and
`createdAt ≤ entry.createdAt`). -/
def insertBid (entry : BookEntry) : List BookEntry → List BookEntry
  | [] => [entry]
  | e :: rest =>
    if e.price > entry.price ∨ (e.price = entry.price ∧ e.createdAt ≤ entry.createdAt) then
      e :: insertBid entry rest
    else entry :: e :: rest

/-- `insertAsk(asks, entry)`: insert keeping price ASC, time ASC order. -/
def insertAsk (entry : BookEntry) : List BookEntry → List BookEntry
  | [] => [entry]
  | e :: rest =>
    if e.price < entry.price ∨ (e.price = entry.price ∧ e.createdAt ≤ entry.createdAt) then
      e :: insertAsk entry rest
    else entry :: e :: rest

/-- `removeFromBook(arr, orderId)`: splice out the first entry with that
id (`findIndex` + `splice(idx, 1)`), no-op when absent. -/
def removeFromBook : List BookEntry → Nat → List BookEntry
  | [], _ => []
  | e :: rest, orderId =>
    if e.id = orderId then rest else e :: removeFromBook rest orderId

/-- `validateParams(userId, roundStart, side, outcome, shares, price)`.
JS falsiness of `userId`/`roundStart` is `= 0`; `side` and `outcome` are
already well-typed here, so their membership checks always pass. -/
def validateParams (userId roundStart : Nat) (shares : Int) (price : Option Int) :
    Option String :=
  if userId = 0 then some "Not authenticated"
  else if roundStart = 0 then some "No active round"
  else if shares ≤ 0 then some "Shares must be a positive integer"
  else if shares > maxSharesPerOrder then
    some ("Max " ++ toString maxSharesPerOrder ++ " shares per order")
  else
    match price with
    | some p =>
      if p < minPrice ∨ p > maxPrice then
        some ("Price must be an integer between " ++ toString minPrice ++
              " and " ++ toString maxPrice)
      else none
    | none => none

/-! ## Matching (`matchOrder`) -/

/-- The result of `matchOrder`: the recorded fills, the number of shares
filled, the ids unlinked from the book, plus the final opposing side and
store (the JS code mutates both in place). -/
structure MatchResult where
  fills : List TradeRow
  filledShares : Int
  removedIds : List Nat
  opposing : List BookEntry
  db : Db
deriving Repr

/-- The loop body of `matchOrder`, recursing over the opposing side.
`remaining` mirrors the local `remainingShares`; the incoming order's
identity, price and reserved cost-per-share are constants of the loop.

Per iteration, exactly as in the source:
* self-trade prevention: an entry of the same user is skipped in place;
* crossing check: an incoming bid stops at the first ask priced above it,
  an incoming ask at the first bid priced below it;
* `fillQty = min(remaining, resting.remainingShares)`,
  `execPrice = resting.price` (maker price);
* price-improvement refund `(cost_per_share − takerActualCost) · fillQty`
  cents credited to the taker when positive;
* a trade row is inserted and `updateOrderFill` runs for both orders;
* a fully consumed resting entry is removed from the book. -/
def matchOrderGo (incomingId incomingUser : Nat) (incomingPrice costPerShare : Int)
    (isBid : Bool) (roundStart : Nat) :
    Int → List BookEntry → Db → MatchResult
  | _, [], db =>
    { fills := [], filledShares := 0, removedIds := [], opposing := [], db := db }
  | remaining, resting :: rest, db =>
    if remaining ≤ 0 then
      { fills := [], filledShares := 0, removedIds := [], opposing := resting :: rest, db := db }
    else if resting.userId = incomingUser then
      -- Self-trade prevention: skip, keep the entry in place
      let r := matchOrderGo incomingId incomingUser incomingPrice costPerShare isBid roundStart
                 remaining rest db
      { r with opposing := resting :: r.opposing }
    else if (if isBid then incomingPrice < resting.price else incomingPrice > resting.price) then
      -- No further match possible (book side is sorted)
      { fills := [], filledShares := 0, removedIds := [], opposing := resting :: rest, db := db }
    else
      let fillQty := min remaining resting.remainingShares
      let execPrice := resting.price
      let yesUserId := if isBid then incomingUser else resting.userId
      let noUserId := if isBid then resting.userId else incomingUser
      let bidOrderId := if isBid then incomingId else resting.id
      let askOrderId := if isBid then resting.id else incomingId
      let takerActualCost := if isBid then execPrice else 100 - execPrice
      let takerSavingsPerShare := costPerShare - takerActualCost
      let db := if takerSavingsPerShare > 0 then
                  creditBalance incomingUser (takerSavingsPerShare * fillQty) db
                else db
      let ins := insertTrade
        { roundStart := roundStart, bidOrderId := bidOrderId, askOrderId := askOrderId,
          yesUserId := yesUserId, noUserId := noUserId,
          price := execPrice, shares := fillQty } db
      let trade := ins.1
      let db := updateOrderFill resting.id fillQty ins.2
      let db := updateOrderFill incomingId fillQty db
      let resting' := { resting with remainingShares := resting.remainingShares - fillQty }
      if resting'.remainingShares ≤ 0 then
        let r := matchOrderGo incomingId incomingUser incomingPrice costPerShare isBid roundStart
                   (remaining - fillQty) rest db
        { fills := trade :: r.fills, filledShares := fillQty + r.filledShares,
          removedIds := resting.id :: r.removedIds, opposing := r.opposing, db := r.db }
      else
        let r := matchOrderGo incomingId incomingUser incomingPrice costPerShare isBid roundStart
                   (remaining - fillQty) rest db
        { fills := trade :: r.fills, filledShares := fillQty + r.filledShares,
          removedIds := r.removedIds, opposing := resting' :: r.opposing, db := r.db }

/-- `matchOrder(incomingOrder, opposingSide, roundStart, client)`. -/
def matchOrder (incomingOrder : OrderRow) (opposingSide : List BookEntry)
    (roundStart : Nat) (db : Db) : MatchResult :=
  matchOrderGo incomingOrder.id incomingOrder.user_id incomingOrder.price
    incomingOrder.cost_per_share (incomingOrder.book_side = .bid) roundStart
    incomingOrder.remaining_shares opposingSide db

end TradingEngine

/-! ## Stop-limit triggering (`checkStopOrders`) -/

namespace TradingEngine

/-- The trigger test of `checkStopOrders` for one pending stop:
a BID stop triggers when `bestAsk ≤ stopPrice`, an ASK stop when
`bestBid ≥ stopPrice`; a missing best price never triggers. -/
def stopTriggered (bestBid bestAsk : Option Int) (s : StopEntry) : Bool :=
  match s.bookSide, bestAsk, bestBid with
  | .bid, some a, _ => a ≤ s.stopPrice
  | .bid, none, _ => false
  | .ask, _, some b => b ≥ s.stopPrice
  | .ask, _, none => false

/-- Processing of one triggered stop inside `checkStopOrders`:

* transaction 1: `activateStopOrder` then `deductBalance` of
  `costPerShare · remainingShares`; on failure the transaction rolls back
  (the activation is undone) and the order is cancelled outside any
  transaction (`dbTrading.cancelOrder(stop.id, stop.userId)`);
* on success, the re-fetched row is matched against the opposing book
  side in a second transaction, and an unfilled residual is inserted
  into the resting book. -/
def processTriggeredStop (roundStart : Nat) (st : EngineState) (stop : StopEntry) :
    EngineState :=
  let totalCost := stop.costPerShare * stop.remainingShares
  match deductBalance stop.userId totalCost (activateStopOrderDb stop.id st.db) with
  | .error _ =>
    -- ROLLBACK of activation + deduction, then cancel the stop order
    { st with db := (cancelOrderDb stop.id stop.userId st.db).2 }
  | .ok db1 =>
    match db1.getOrder stop.id with
    | none => { st with db := db1 }
    | some order =>
      let book := st.bookFor roundStart
      let opposing := if stop.bookSide = .bid then book.asks else book.bids
      let r := matchOrder order opposing roundStart db1
      let book1 :=
        if stop.bookSide = .bid then { book with asks := r.opposing }
        else { book with bids := r.opposing }
      let unfilled := order.remaining_shares - r.filledShares
      let book2 :=
        if unfilled > 0 then
          let entry : BookEntry :=
            { id := stop.id, userId := stop.userId, price := stop.price,
              remainingShares := unfilled, costPerShare := stop.costPerShare,
              bookSide := stop.bookSide, createdAt := order.created_at }
          if stop.bookSide = .bid then { book1 with bids := insertBid entry book1.bids }
          else { book1 with asks := insertAsk entry book1.asks }
        else book1
      { st.setBook roundStart book2 with db := r.db }

/-- `checkStopOrders(roundStart)`: read the round's pending stops; if any,
take the best bid/ask of the book **once**, partition the stops into
`triggered` and `remaining` against those prices, store `remaining` as
the new pending list, and process each triggered stop in order.  The
processing loop performs no further stop check. -/
def checkStopOrders (st : EngineState) (roundStart : Nat) : EngineState :=
  let stops := st.stopsFor roundStart
  if stops.isEmpty then st
  else
    let st := st.initRound roundStart   -- getBook
    let book := st.bookFor roundStart
    let bestBid := book.bids.head?.map (fun e => e.price)
    let bestAsk := book.asks.head?.map (fun e => e.price)
    let pr := stops.partition (stopTriggered bestBid bestAsk)
    let st := st.putStops roundStart pr.2
    pr.1.foldl (processTriggeredStop roundStart) st

/-! ## Order placement -/

/-- The object returned by the placement methods
(`{ order, fills, unfilledShares? }`). -/
structure OrderResult where
  order : OrderRow
  fills : List TradeRow
  unfilledShares : Option Int
deriving Repr

/-- The residual-cancel UPDATE of `placeMarketFAK`:
`SET status = CASE WHEN filled_shares > 0 THEN 'partially_filled' ELSE 'cancelled' END,
remaining_shares = 0 WHERE id = $1`. -/
def fakResidualCancelRow (o : OrderRow) : OrderRow :=
  { o with
    status := if o.filled_shares > 0 then .partially_filled else .cancelled
    remaining_shares := 0 }

/-- Apply `fakResidualCancelRow` to the row with the given id. -/
def fakResidualCancel (orderId : Nat) (db : Db) : Db :=
  { db with orders := db.orders.map (fun o => if o.id = orderId then fakResidualCancelRow o else o) }

/-- `placeMarketFAK(userId, roundStart, side, outcome, shares)`.
`now` stands for the inserted row's `created_at` timestamp.
A thrown error is returned as `.error`; the transaction's store effects
are then rolled back (the state keeps only the in-memory `getBook`
initialisation, as in the source). -/
def placeMarketFAK (st : EngineState) (userId roundStart : Nat) (side : Side)
    (outcome : UserOutcome) (shares : Int) (now : Nat) :
    EngineState × Except String OrderResult :=
  match validateParams userId roundStart shares none with
  | some e => (st, .error e)
  | none =>
    let n := normalize side outcome
      (if (side = .buy ∧ outcome = .yes) ∨ (side = .sell ∧ outcome = .no) then 99 else 1)
    let costPerShare := n.costPerShare
    let bookPrice : Int := if n.bookSide = .bid then 99 else 1
    let st := st.initRound roundStart   -- getBook
    let book := st.bookFor roundStart
    -- BEGIN
    let totalCost := costPerShare * shares
    match deductBalance userId totalCost st.db with
    | .error e => (st, .error e)   -- ROLLBACK
    | .ok db1 =>
      let ins := insertOrder
        { userId := userId, roundStart := roundStart, side := side, outcome := outcome,
          bookSide := n.bookSide, orderType := .market_fak, price := bookPrice,
          stopPrice := none, shares := shares, costPerShare := costPerShare,
          status := .open_ } now db1
      let order := ins.1
      let opposing := if n.bookSide = .bid then book.asks else book.bids
      let r := matchOrder order opposing roundStart ins.2
      let book' :=
        if n.bookSide = .bid then { book with asks := r.opposing }
        else { book with bids := r.opposing }
      let unfilledShares := shares - r.filledShares
      let db3 :=
        if unfilledShares > 0 then
          creditBalance userId (costPerShare * unfilledShares) (fakResidualCancel order.id r.db)
        else r.db
      -- COMMIT
      let st := { st.setBook roundStart book' with db := db3 }
      let finalOrder := (db3.getOrder order.id).getD order
      let st := if r.fills ≠ [] then checkStopOrders st roundStart else st
      (st, .ok { order := finalOrder, fills := r.fills, unfilledShares := some unfilledShares })

/-- The FOK liquidity pre-check: walk the opposing side accumulating
`available`, skipping the placer's own entries, stopping as soon as
`available ≥ shares` (the `break`). -/
def fokAvailable (userId : Nat) (shares : Int) : Int → List BookEntry → Int
  | acc, [] => acc
  | acc, e :: rest =>
    if e.userId = userId then fokAvailable userId shares acc rest
    else
      let acc2 := acc + e.remainingShares
      if acc2 ≥ shares then acc2 else fokAvailable userId shares acc2 rest

/-- `placeMarketFOK(userId, roundStart, side, outcome, shares)`:
pre-checks liquidity before opening any transaction; if the full
quantity cannot be filled, throws
`Insufficient liquidity: <available> shares available, need <shares>`
with no store mutation. -/
def placeMarketFOK (st : EngineState) (userId roundStart : Nat) (side : Side)
    (outcome : UserOutcome) (shares : Int) (now : Nat) :
    EngineState × Except String OrderResult :=
  match validateParams userId roundStart shares none with
  | some e => (st, .error e)
  | none =>
    let n := normalize side outcome
      (if (side = .buy ∧ outcome = .yes) ∨ (side = .sell ∧ outcome = .no) then 99 else 1)
    let costPerShare := n.costPerShare
    let bookPrice : Int := if n.bookSide = .bid then 99 else 1
    let st := st.initRound roundStart   -- getBook
    let book := st.bookFor roundStart
    let opposing := if n.bookSide = .bid then book.asks else book.bids
    let available := fokAvailable userId shares 0 opposing
    if available < shares then
      (st, .error ("Insufficient liquidity: " ++ toString available ++
                   " shares available, need " ++ toString shares))
    else
      -- BEGIN
      match deductBalance userId (costPerShare * shares) st.db with
      | .error e => (st, .error e)   -- ROLLBACK
      | .ok db1 =>
        let ins := insertOrder
          { userId := userId, roundStart := roundStart, side := side, outcome := outcome,
            bookSide := n.bookSide, orderType := .market_fok, price := bookPrice,
            stopPrice := none, shares := shares, costPerShare := costPerShare,
            status := .open_ } now db1
        let order := ins.1
        let r := matchOrder order opposing roundStart ins.2
        let book' :=
          if n.bookSide = .bid then { book with asks := r.opposing }
          else { book with bids := r.opposing }
        if r.filledShares < shares then
          -- safety ROLLBACK; the in-memory book keeps the splices
          (st.setBook roundStart book', .error "FOK fill failed unexpectedly")
        else
          -- COMMIT
          let st := { st.setBook roundStart book' with db := r.db }
          let finalOrder := (r.db.getOrder order.id).getD order
          let st := if r.fills ≠ [] then checkStopOrders st roundStart else st
          (st, .ok { order := finalOrder, fills := r.fills, unfilledShares := none })

/-- `placeLimitOrder(userId, roundStart, side, outcome, shares, price)`:
deduct, insert, match; an unfilled residual rests in the book. -/
def placeLimitOrder (st : EngineState) (userId roundStart : Nat) (side : Side)
    (outcome : UserOutcome) (shares price : Int) (now : Nat) :
    EngineState × Except String OrderResult :=
  match validateParams userId roundStart shares (some price) with
  | some e => (st, .error e)
  | none =>
    let n := normalize side outcome price
    let st := st.initRound roundStart   -- getBook
    let book := st.bookFor roundStart
    -- BEGIN
    match deductBalance userId (n.costPerShare * shares) st.db with
    | .error e => (st, .error e)   -- ROLLBACK
    | .ok db1 =>
      let ins := insertOrder
        { userId := userId, roundStart := roundStart, side := side, outcome := outcome,
          bookSide := n.bookSide, orderType := .limit, price := n.bookPrice,
          stopPrice := none, shares := shares, costPerShare := n.costPerShare,
          status := .open_ } now db1
      let order := ins.1
      let opposing := if n.bookSide = .bid then book.asks else book.bids
      let r := matchOrder order opposing roundStart ins.2
      let book1 :=
        if n.bookSide = .bid then { book with asks := r.opposing }
        else { book with bids := r.opposing }
      -- COMMIT
      let unfilled := shares - r.filledShares
      let book2 :=
        if unfilled > 0 then
          let entry : BookEntry :=
            { id := order.id, userId := userId, price := n.bookPrice,
              remainingShares := unfilled, costPerShare := n.costPerShare,
              bookSide := n.bookSide, createdAt := order.created_at }
          if n.bookSide = .bid then { book1 with bids := insertBid entry book1.bids }
          else { book1 with asks := insertAsk entry book1.asks }
        else book1
      let st := { st.setBook roundStart book2 with db := r.db }
      let finalOrder := (r.db.getOrder order.id).getD order
      let st := if r.fills ≠ [] then checkStopOrders st roundStart else st
      (st, .ok { order := finalOrder, fills := r.fills, unfilledShares := none })

/-- `placeStopLimitOrder(userId, roundStart, side, outcome, shares, stopPrice, price)`:
insert the order with status `'stopped'` and **no balance reserved**, add
it to the in-memory stop list, then run the stop check once. -/
def placeStopLimitOrder (st : EngineState) (userId roundStart : Nat) (side : Side)
    (outcome : UserOutcome) (shares stopPrice price : Int) (now : Nat) :
    EngineState × Except String OrderResult :=
  match validateParams userId roundStart shares (some price) with
  | some e => (st, .error e)
  | none =>
    if stopPrice < minPrice ∨ stopPrice > maxPrice then
      (st, .error ("Stop price must be an integer between " ++ toString minPrice ++
                   " and " ++ toString maxPrice))
    else
      let n := normalize side outcome price
      let stopNorm := normalize side outcome stopPrice
      let ins := insertOrder
        { userId := userId, roundStart := roundStart, side := side, outcome := outcome,
          bookSide := n.bookSide, orderType := .stop_limit, price := n.bookPrice,
          stopPrice := some stopNorm.bookPrice, shares := shares,
          costPerShare := n.costPerShare, status := .stopped } now st.db
      let order := ins.1
      let db1 := ins.2
      let stops := st.stopsFor roundStart
      let entry : StopEntry :=
        { id := order.id, userId := userId, bookSide := n.bookSide, price := n.bookPrice,
          stopPrice := stopNorm.bookPrice, remainingShares := shares,
          costPerShare := n.costPerShare, side := side, outcome := outcome }
      let st := ({ st with db := db1 }).putStops roundStart (stops ++ [entry])
      let st := checkStopOrders st roundStart
      (st, .ok { order := order, fills := [], unfilledShares := none })

/-! ## Cancel (`cancelOrder`) -/

/-- The `{orderId, refund}` confirmation of `cancelOrder`
(`refund` in cents). -/
structure CancelResult where
  orderId : Nat
  refund : Int
deriving DecidableEq, Repr

/-- `cancelOrder(userId, orderId)`: reject when the order is missing, not
owned, a market order, or not in `{open, partially_filled, stopped}`;
otherwise mark it cancelled, refund `remaining · costPerShare` cents
unless it was `stopped`, and remove the in-memory book or stop entry. -/
def cancelOrder (st : EngineState) (userId orderId : Nat) :
    EngineState × Except String CancelResult :=
  match st.db.getOrder orderId with
  | none => (st, .error "Order not found")
  | some order =>
    if order.user_id ≠ userId then (st, .error "Not your order")
    else if order.order_type = .market_fak ∨ order.order_type = .market_fok then
      (st, .error "Cannot cancel market orders")
    else if ¬(order.status = .open_ ∨ order.status = .partially_filled ∨
              order.status = .stopped) then
      (st, .error ("Cannot cancel order with status '" ++ order.status.text ++ "'"))
    else
      let cres := cancelOrderDb orderId userId st.db
      match cres.1 with
      | none => (st, .error "Cancel failed — order may have been filled")
      | some cancelled =>
        let refund :=
          if order.status ≠ .stopped then cancelled.remaining_shares * cancelled.cost_per_share
          else 0
        let db2 :=
          if order.status ≠ .stopped ∧ refund > 0 then creditBalance userId refund cres.2 else cres.2
        -- COMMIT, then drop the in-memory entries
        let roundStart := order.round_start
        let book := st.bookFor roundStart
        let book' :=
          if order.book_side = .bid then { book with bids := removeFromBook book.bids orderId }
          else { book with asks := removeFromBook book.asks orderId }
        let st := st.setBook roundStart book'
        let st := st.setStops roundStart ((st.stopsFor roundStart).filter (fun s => s.id ≠ orderId))
        (({ st with db := db2 }), .ok { orderId := orderId, refund := refund })

/-! ## Settlement (`settleRound`) -/

/-- `settleRound(roundStart, winningOutcome)`.

In one transaction: `cancelAllRoundOrders` (snapshot + mark cancelled),
refund `remaining · costPerShare` cents for every snapshot row that was
not `stopped`, then fetch the round's positions and pay the winning side
100 cents per share.  The positions fetch is written
`dbTrading.getRoundPositions(roundStart, client)` in the source while
`db-trading.js` exports no such name (its positions query is
`getAllPositions`), so the call site raises
`TypeError: dbTrading.getRoundPositions is not a function`; the catch
handler issues ROLLBACK and rethrows, discarding every effect of the
transaction.  The payout loop is embedded under the export-resolution
guard exactly as it would run if the name resolved. -/
def settleRound (st : EngineState) (roundStart : Nat) (winningOutcome : WinOutcome) :
    EngineState × Except String (List (Nat × Int)) :=
  let cc := cancelAllRoundOrders roundStart st.db
  let cancelledOrders := cc.1
  let db1 := cc.2
  let db2 := cancelledOrders.foldl
    (fun acc order =>
      if order.status ≠ .stopped then
        if order.remaining_shares > 0 then
          let refund := order.remaining_shares * order.cost_per_share
          if refund > 0 then creditBalance order.user_id refund acc else acc
        else acc
      else acc) db1
  if dbTradingExports.contains "getRoundPositions" then
    let positions := getAllPositions roundStart db2
    let yesWins := winningOutcome = .up
    let step := fun (acc : Db × List (Nat × Int)) (pos : PositionRow) =>
      let winningShares := if yesWins then pos.yes_shares else pos.no_shares
      if winningShares > 0 then
        let payout := 100 * winningShares   -- $1.00 per winning share, in cents
        (creditBalance pos.user_id payout acc.1, acc.2 ++ [(pos.user_id, payout)])
      else acc
    let res := positions.foldl step (db2, [])
    -- COMMIT, then clear the in-memory state for the round
    (({ st with db := res.1 }).eraseRound roundStart, .ok res.2)
  else
    -- ROLLBACK: every effect of the transaction is discarded
    (st, .error "dbTrading.getRoundPositions is not a function")

end TradingEngine

/-! ## `websocket-server.js` — market lifecycle controller

`PriceWebSocketServer` keeps `currentMinuteStart`, a map
`minuteStartMs → market` and the newest aggregated price (`lastPrice`).
Calls out of the controller (store writes, engine notifications,
broadcasts) are recorded as `CtrlAction`s.  The engine notification of
`activateMarket` is `initRound` followed by `setPhase` — note that
`TradingEngine` declares no `setPhase` method; the action trace records
the notification point itself. -/

/-- Market phase (`getMarketPhase` / `market.phase`). -/
inductive Phase where
  | provision
  | active
  | closed
deriving DecidableEq, Repr

/-- In-memory market metadata (`this.markets` values). -/
structure Market where
  minuteStart : Nat
  phase : Phase
  priceToBeat : Option ℚ
  finalPrice : Option ℚ
  outcome : Option WinOutcome
deriving DecidableEq, Repr

/-- Controller state. -/
structure CtrlState where
  currentMinuteStart : Nat
  markets : List (Nat × Market)
  lastPrice : Option ℚ
deriving DecidableEq, Repr

/-- Externally visible calls made by the controller. -/
inductive CtrlAction where
  | marketCreated (minuteStart : Nat)
  | marketActivated (minuteStart : Nat) (priceToBeat : ℚ)
  | marketSettled (minuteStart : Nat) (finalPrice : ℚ) (outcome : WinOutcome)
deriving DecidableEq, Repr

/-- `getMarketPhase(minuteStartMs)` against the current clock `now`. -/
def getMarketPhase (now ms : Nat) : Phase :=
  if now < ms then .provision
  else if now < ms + 60000 then .active
  else .closed

namespace CtrlState

/-- Lookup in `this.markets`. -/
def marketAt (st : CtrlState) (ms : Nat) : Option Market :=
  (st.markets.find? (fun p => p.1 = ms)).map (fun p => p.2)

/-- Replace the market stored at `ms` (in-place object mutation). -/
def setMarket (st : CtrlState) (ms : Nat) (m : Market) : CtrlState :=
  { st with markets := st.markets.map (fun p => if p.1 = ms then (ms, m) else p) }

/-- `createMarket(minuteStartMs)`: no-op if present, otherwise insert a
market whose phase is computed by `getMarketPhase` and whose
`priceToBeat` is null (plus the `db.insertMarket` write). -/
def createMarket (st : CtrlState) (now ms : Nat) : CtrlState × List CtrlAction :=
  if (st.markets.find? (fun p => p.1 = ms)).isSome then (st, [])
  else
    ({ st with markets := st.markets ++
        [(ms, { minuteStart := ms, phase := getMarketPhase now ms,
                priceToBeat := none, finalPrice := none, outcome := none })] },
     [.marketCreated ms])

/-- `activateMarket(minuteStartMs, priceToBeat)`: set phase `active` and
`priceToBeat`, notify the engine (`initRound` — the following `setPhase`
has no method on `TradingEngine`), persist `priceToBeat`, broadcast. -/
def activateMarket (st : CtrlState) (ms : Nat) (priceToBeat : ℚ) :
    CtrlState × List CtrlAction :=
  match st.marketAt ms with
  | none => (st, [])
  | some m =>
    (st.setMarket ms { m with phase := .active, priceToBeat := some priceToBeat },
     [.marketActivated ms priceToBeat])

/-- `settleMarket(minuteStartMs)`: guarded by "already closed" and by a
falsy `priceToBeat` (null — or a literal 0 price, JS falsiness); computes
`outcome = finalPrice >= priceToBeat ? 'up' : 'down'` from
`this.lastPrice` (a null `lastPrice` compares like 0), marks the market
closed and emits the settlement (store outcome + engine `settleRound`). -/
def settleMarket (st : CtrlState) (ms : Nat) : CtrlState × List CtrlAction :=
  match st.marketAt ms with
  | none => (st, [])
  | some m =>
    if m.phase = .closed then (st, [])
    else
      match m.priceToBeat with
      | none => (st, [])
      | some ptb =>
        if ptb = 0 then (st, [])   -- `if (!market.priceToBeat) return`
        else
          let finalPrice := st.lastPrice.getD 0
          let outcome : WinOutcome := if finalPrice ≥ ptb then .up else .down
          (st.setMarket ms { m with phase := .closed, finalPrice := some finalPrice,
                                    outcome := some outcome },
           [.marketSettled ms finalPrice outcome])

/-- `cleanupOldMarkets()`: delete markets closed more than 10 minutes ago. -/
def cleanupOldMarkets (st : CtrlState) (now : Nat) : CtrlState :=
  { st with markets := st.markets.filter (fun p =>
      ¬(p.2.phase = .closed ∧ p.1 + 60000 < now - 600000)) }

/-- The `for (let i = 1; i <= 5; i++) createMarket(ms + i*60000)` loop of
the re-alignment block. -/
def createFutureMarkets (st : CtrlState) (now ms : Nat) : CtrlState × List CtrlAction :=
  (List.range 5).foldl
    (fun acc i =>
      let c := createMarket acc.1 now (ms + (i + 1) * 60000)
      (c.1, acc.2 ++ c.2))
    (st, [])

/-- `checkMinuteBoundary()`, driven by the 500 ms interval.  `now` is the
clock reading; the current minute start is `now` with seconds and
milliseconds zeroed.  Steps, exactly as in the source:

1. return if no reference price has arrived;
2. if the minute advanced past `currentMinuteStart`, **re-align**
   `currentMinuteStart` to the new minute and create any missing
   current/future markets;
3. if the market at `currentMinuteStart` is neither active nor closed,
   activate it with `lastPrice` and **return**;
4. otherwise, if the minute advanced past `currentMinuteStart`, settle
   the previous market, activate the current one, create the market five
   minutes out and prune old ones.

(The reentrancy flag `_boundaryInProgress` serialises invocations; the
embedding is single-threaded, so it is not represented.) -/
def checkMinuteBoundary (st : CtrlState) (now : Nat) : CtrlState × List CtrlAction :=
  match st.lastPrice with
  | none => (st, [])
  | some lastPrice =>
    let minuteStartMs := now - now % 60000
    let realigned :=
      if minuteStartMs > st.currentMinuteStart then
        let st' := { st with currentMinuteStart := minuteStartMs }
        let c := createMarket st' now minuteStartMs
        let f := createFutureMarkets c.1 now minuteStartMs
        (f.1, c.2 ++ f.2)
      else (st, ([] : List CtrlAction))
    let st1 := realigned.1
    let acts1 := realigned.2
    -- `if (currentMarket && phase !== 'active' && phase !== 'closed')`
    let shouldActivate : Bool :=
      match st1.marketAt st1.currentMinuteStart with
      | some m => m.phase ≠ Phase.active ∧ m.phase ≠ Phase.closed
      | none => false
    if shouldActivate then
      let a := activateMarket st1 st1.currentMinuteStart lastPrice
      (a.1, acts1 ++ a.2)   -- `return`
    else
      -- "New minute detected"
      if minuteStartMs > st1.currentMinuteStart then
        let previousMinuteStart := st1.currentMinuteStart
        let st2 := { st1 with currentMinuteStart := minuteStartMs }
        let s1 := settleMarket st2 previousMinuteStart
        let s2 :=
          if (s1.1.markets.find? (fun p => p.1 = minuteStartMs)).isSome then
            activateMarket s1.1 minuteStartMs lastPrice
          else (s1.1, [])
        let s3 := createMarket s2.1 now (minuteStartMs + 300000)
        let st6 := cleanupOldMarkets s3.1 now
        (st6, acts1 ++ s1.2 ++ s2.2 ++ s3.2)
      else (st1, acts1)

end CtrlState

/-! ## `aggregator.js` — price aggregation -/

/-- The newest sample held for one source (`this.prices` values). -/
structure PriceData where
  exchange : String
  price : ℚ
  timestamp : Nat
deriving DecidableEq, Repr

/-- One element of the `sources` array of an `aggregate` event. -/
structure SourceInfo where
  exchange : String
  price : ℚ
  weight : ℚ
  age : Int
deriving DecidableEq, Repr

/-- An `aggregate` event (`price = none` encodes the JS `null`). -/
structure AggregateEvent where
  price : Option ℚ
  sources : List SourceInfo
  timestamp : Nat
  sourceCount : Nat
deriving DecidableEq, Repr

/-- `config.weights` of `server/config.js` (8 sources). -/
def serverWeights : List (String × ℚ) :=
  [("binance", 25/100), ("bybit_usdt", 15/100), ("bybit_usdc", 10/100),
   ("coinbase", 15/100), ("kraken_usdt", 10/100), ("kraken_usdc", 5/100),
   ("kucoin", 10/100), ("gemini", 10/100)]

/-- `config.weights` of the trading server's `config.js` (11 sources). -/
def tradingWeights : List (String × ℚ) :=
  [("binance", 20/100), ("bybit_usdt", 12/100), ("coinbase", 12/100),
   ("bybit_usdc", 8/100), ("kraken_usdt", 8/100), ("bitfinex", 8/100),
   ("kucoin", 7/100), ("gemini", 7/100), ("gateio", 7/100),
   ("cryptocom", 7/100), ("kraken_usdc", 4/100)]

/-- `config.weights[exchangeName] || 0.05`: the static table entry, with
`0.05` as the default for a missing (or zero, by JS falsiness) entry. -/
def weightFor (weights : List (String × ℚ)) (name : String) : ℚ :=
  match weights.find? (fun p => p.1 = name) with
  | some p => if p.2 = 0 then 5/100 else p.2
  | none => 5/100

/-- `calculateAggregate()`: one pass over the held samples accumulating
`weightedSum` and `totalWeight` and building the `sources` array — with
no staleness filtering (`age` is computed for reporting only).  Emits
`price: null` when `totalWeight === 0`, else the normalised weighted
average. -/
def calculateAggregate (weights : List (String × ℚ)) (prices : List PriceData)
    (now : Nat) : AggregateEvent :=
  let sources := prices.map (fun d =>
    ({ exchange := d.exchange, price := d.price,
       weight := weightFor weights d.exchange,
       age := (now : Int) - (d.timestamp : Int) } : SourceInfo))
  let totalWeight := (prices.map (fun d => weightFor weights d.exchange)).sum
  let weightedSum := (prices.map (fun d => d.price * weightFor weights d.exchange)).sum
  if totalWeight = 0 then
    { price := none, sources := [], timestamp := now, sourceCount := 0 }
  else
    { price := some (weightedSum / totalWeight), sources := sources,
      timestamp := now, sourceCount := sources.length }

/-- One source's entry in `getStatus()`: the staleness threshold is
applied here, for reporting, and nowhere else. -/
structure SourceStatus where
  connected : Bool
  price : Option ℚ
  lastUpdate : Option Nat
  age : Option Int
  stale : Bool
deriving DecidableEq, Repr

/-- `config.staleThreshold` (ms). -/
def staleThreshold : Int := 10000

/-- `getStatus()` for one exchange `name` with connection flag `conn`. -/
def getStatusFor (prices : List PriceData) (now : Nat) (name : String) (conn : Bool) :
    SourceStatus :=
  match prices.find? (fun d => d.exchange = name) with
  | some d =>
    { connected := conn, price := some d.price, lastUpdate := some d.timestamp,
      age := some ((now : Int) - (d.timestamp : Int)),
      stale := (now : Int) - (d.timestamp : Int) > staleThreshold }
  | none =>
    { connected := conn, price := none, lastUpdate := none, age := none, stale := true }

/-! # Verification

Claims are settled below; each claim's theorem carries its id in the doc
comment.  Helper lemmas come first. -/

/-- An empty store, shared by the concrete scenarios below. -/
def dbEmpty : Db :=
  { orders := [], trades := [], positions := [], balances := [],
    nextOrderId := 1, nextTradeId := 1 }

/-- **C1.** `settleRound` is supposed to cancel the round's open orders,
refund them, and pay the winning side of every position in one
transaction.  In fact its positions fetch names an export
(`getRoundPositions`) that `db-trading.js` does not provide, so every
invocation throws before the payout step and the catch handler rolls the
whole transaction back: settlement never commits any of its effects, for
every store state, round and outcome. -/
theorem C1_settleRound_always_rolls_back (st : EngineState) (roundStart : Nat)
    (outcome : WinOutcome) :
    TradingEngine.settleRound st roundStart outcome =
      (st, .error "dbTrading.getRoundPositions is not a function") := by
  have h : "getRoundPositions" ∉ dbTradingExports := by decide
  simp [TradingEngine.settleRound, h]

/-- Is an action a settlement? -/
def CtrlAction.isSettle : CtrlAction → Bool
  | .marketSettled _ _ _ => true
  | _ => false

/-- `createMarket` never changes `currentMinuteStart`. -/
theorem createMarket_currentMinuteStart (st : CtrlState) (now ms : Nat) :
    (st.createMarket now ms).1.currentMinuteStart = st.currentMinuteStart := by
  unfold CtrlState.createMarket
  split <;> rfl

/-- `createMarket` emits no settlement action. -/
theorem createMarket_no_settle (st : CtrlState) (now ms : Nat) :
    ∀ a ∈ (st.createMarket now ms).2, a.isSettle = false := by
  unfold CtrlState.createMarket
  split
  · simp
  · intro a ha
    simp at ha
    subst ha
    rfl

/-- `createFutureMarkets` never changes `currentMinuteStart`. -/
theorem createFutureMarkets_currentMinuteStart (st : CtrlState) (now ms : Nat) :
    (st.createFutureMarkets now ms).1.currentMinuteStart = st.currentMinuteStart := by
  unfold CtrlState.createFutureMarkets
  have key : ∀ (l : List Nat) (acc : CtrlState × List CtrlAction),
      ((l.foldl (fun acc i =>
          let c := CtrlState.createMarket acc.1 now (ms + (i + 1) * 60000)
          (c.1, acc.2 ++ c.2)) acc).1).currentMinuteStart = acc.1.currentMinuteStart := by
    intro l
    induction l with
    | nil => intro acc; rfl
    | cons x xs ih =>
      intro acc
      rw [List.foldl_cons, ih]
      exact createMarket_currentMinuteStart acc.1 now (ms + (x + 1) * 60000)
  exact key (List.range 5) (st, [])

/-- `createFutureMarkets` emits no settlement action. -/
theorem createFutureMarkets_no_settle (st : CtrlState) (now ms : Nat) :
    ∀ a ∈ (st.createFutureMarkets now ms).2, a.isSettle = false := by
  unfold CtrlState.createFutureMarkets
  have key : ∀ (l : List Nat) (acc : CtrlState × List CtrlAction),
      (∀ a ∈ acc.2, a.isSettle = false) →
      ∀ a ∈ (l.foldl (fun acc i =>
          let c := CtrlState.createMarket acc.1 now (ms + (i + 1) * 60000)
          (c.1, acc.2 ++ c.2)) acc).2, a.isSettle = false := by
    intro l
    induction l with
    | nil => intro acc hacc; exact hacc
    | cons x xs ih =>
      intro acc hacc
      rw [List.foldl_cons]
      refine ih _ ?_
      intro a ha
      rcases List.mem_append.mp ha with h | h
      · exact hacc a h
      · exact createMarket_no_settle acc.1 now (ms + (x + 1) * 60000) a h
  exact key (List.range 5) (st, []) (by simp)

/-- `activateMarket` emits no settlement action. -/
theorem activateMarket_no_settle (st : CtrlState) (ms : Nat) (p : ℚ) :
    ∀ a ∈ (st.activateMarket ms p).2, a.isSettle = false := by
  unfold CtrlState.activateMarket
  cases h : st.marketAt ms with
  | none => simp
  | some m =>
    intro a ha
    simp at ha
    subst ha
    rfl

/-- **C6.** The claim says the controller, at every minute boundary, first
settles the expiring market and then activates the new one with the same
final price.  In the code, the re-alignment block at the top of
`checkMinuteBoundary` sets `currentMinuteStart` to the new minute before
the "new minute detected" test runs, so that test
(`minuteStartMs > currentMinuteStart`) can never be true and the
settle-then-activate block is unreachable: a boundary tick merely
activates the new market (with `lastPrice` as its price to beat) and
returns, leaving the expired market unsettled.  Formally: no invocation
of `checkMinuteBoundary`, from any controller state at any clock
reading, ever emits a settlement. -/
theorem C6_checkMinuteBoundary_never_settles (st : CtrlState) (now : Nat) :
    ∀ a ∈ (st.checkMinuteBoundary now).2, a.isSettle = false := by
  obtain ⟨cur, markets, lp⟩ := st
  cases lp with
  | none => simp [CtrlState.checkMinuteBoundary]
  | some lastPrice =>
    unfold CtrlState.checkMinuteBoundary
    dsimp only
    by_cases hgt : now - now % 60000 > cur
    · rw [if_pos hgt]
      dsimp only
      set stc := CtrlState.createMarket
        { currentMinuteStart := now - now % 60000, markets := markets,
          lastPrice := some lastPrice } now (now - now % 60000) with hstc
      set stf := CtrlState.createFutureMarkets stc.1 now (now - now % 60000) with hstf
      have hcur : stf.1.currentMinuteStart = now - now % 60000 := by
        rw [hstf, createFutureMarkets_currentMinuteStart, hstc,
            createMarket_currentMinuteStart]
      have hacts : ∀ a ∈ stc.2 ++ stf.2, a.isSettle = false := by
        intro a ha
        rcases List.mem_append.mp ha with h | h
        · exact createMarket_no_settle _ now _ a h
        · exact createFutureMarkets_no_settle _ now _ a h
      split
      · -- activation branch
        intro a ha
        rcases List.mem_append.mp ha with h | h
        · exact hacts a h
        · exact activateMarket_no_settle _ _ _ a h
      · -- would-be settle branch: the test is now irreflexive
        rw [hcur, if_neg (lt_irrefl _)]
        exact hacts
    · rw [if_neg hgt]
      dsimp only
      split
      · intro a ha
        rcases List.mem_append.mp ha with h | h
        · simp at h
        · exact activateMarket_no_settle _ _ _ a h
      · simp

/-! ## C4 — stop triggering is evaluated once per pass -/

/-- Appending a fresh key to an association list and finding it. -/
theorem find?_append_fresh {α : Type} (l : List (Nat × α)) (rs : Nat) (v : α)
    (h : l.find? (fun p => p.1 = rs) = none) :
    (l ++ [(rs, v)]).find? (fun p => p.1 = rs) = some (rs, v) := by
  rw [List.find?_append, h]
  simp

/-- Updating an association list in place and finding the updated key. -/
theorem find?_map_update {α : Type} (l : List (Nat × α)) (rs : Nat) (v : α)
    (h : (l.find? (fun p => p.1 = rs)).isSome) :
    (l.map (fun p => if p.1 = rs then (rs, v) else p)).find? (fun p => p.1 = rs) =
      some (rs, v) := by
  induction l with
  | nil => simp at h
  | cons x xs ih =>
    by_cases hx : x.1 = rs
    · simp [List.find?, hx]
    · rw [List.find?_cons_of_neg _ (by simpa using hx)] at h
      simp only [List.map_cons, if_neg hx]
      rw [List.find?_cons_of_neg _ (by simpa using hx)]
      exact ih h

/-- `putStops` stores exactly the given list for the round. -/
theorem stopsFor_putStops (st : EngineState) (rs : Nat) (s : List StopEntry) :
    (st.putStops rs s).stopsFor rs = s := by
  unfold EngineState.putStops EngineState.stopsFor
  by_cases h : (st.stops.find? (fun p => p.1 = rs)).isSome
  · rw [if_pos h]
    simp only
    rw [find?_map_update st.stops rs s h]
  · rw [if_neg h]
    simp only
    rw [find?_append_fresh st.stops rs s (by
      cases hf : st.stops.find? (fun p => p.1 = rs) with
      | none => rfl
      | some p => rw [hf] at h; simp at h)]

/-- `setBook` leaves the stop lists untouched. -/
theorem stopsFor_setBook (st : EngineState) (rs rs' : Nat) (b : Book) :
    (st.setBook rs b).stopsFor rs' = st.stopsFor rs' := rfl

/-- Processing one triggered stop never touches the pending stop lists. -/
theorem stopsFor_processTriggeredStop (rs : Nat) (st : EngineState) (stop : StopEntry)
    (rs' : Nat) :
    (TradingEngine.processTriggeredStop rs st stop).stopsFor rs' = st.stopsFor rs' := by
  unfold TradingEngine.processTriggeredStop
  dsimp only
  split
  · rfl
  · split
    · rfl
    · rfl

/-- The trigger-processing loop never touches the pending stop lists. -/
theorem stopsFor_foldl_processTriggeredStop (rs rs' : Nat) (l : List StopEntry)
    (st : EngineState) :
    (l.foldl (TradingEngine.processTriggeredStop rs) st).stopsFor rs' = st.stopsFor rs' := by
  induction l generalizing st with
  | nil => rfl
  | cons x xs ih =>
    rw [List.foldl_cons, ih, stopsFor_processTriggeredStop]

/-- `putStops` leaves the books untouched. -/
theorem putStops_books (st : EngineState) (rs : Nat) (s : List StopEntry) :
    (st.putStops rs s).books = st.books := by
  unfold EngineState.putStops
  split <;> rfl

/-- `initRound` does not change the book observed for the round (it only
materialises the empty book that `bookFor` already reports). -/
theorem bookFor_initRound (st : EngineState) (rs : Nat) :
    (st.initRound rs).bookFor rs = st.bookFor rs := by
  unfold EngineState.initRound
  by_cases h : (st.books.find? (fun p => p.1 = rs)).isSome
  · rw [if_pos h]
  · rw [if_neg h]
    have hf : st.books.find? (fun p => p.1 = rs) = none :=
      Option.not_isSome_iff_eq_none.mp h
    unfold EngineState.bookFor
    rw [putStops_books]
    simp only
    rw [find?_append_fresh st.books rs _ hf, hf]

/-- **C4 (amended).** `checkStopOrders` evaluates the trigger conditions
exactly once per pass, against the top-of-book captured at entry: the
pending set it leaves behind is precisely the stops whose condition did
not hold at entry.  Triggered stops are activated and matched, but the
stop check is not re-run within the pass — a trigger condition that
becomes satisfied by a triggered order's own activity waits for the next
invocation (which only a later placement's fills will issue). -/
theorem C4_checkStopOrders_single_evaluation (st : EngineState) (rs : Nat) :
    (TradingEngine.checkStopOrders st rs).stopsFor rs =
      (st.stopsFor rs).filter
        (fun s => !TradingEngine.stopTriggered
          ((st.bookFor rs).bids.head?.map (fun e => e.price))
          ((st.bookFor rs).asks.head?.map (fun e => e.price)) s) := by
  unfold TradingEngine.checkStopOrders
  dsimp only
  by_cases h : (st.stopsFor rs).isEmpty
  · rw [if_pos h]
    rw [List.isEmpty_iff] at h
    rw [h]
    rfl
  · rw [if_neg h]
    rw [stopsFor_foldl_processTriggeredStop, stopsFor_putStops,
        List.partition_eq_filter_filter, bookFor_initRound]
    rfl

/-- Resting limit ask (3 shares at 50, user 10) for the C4 scenario. -/
def askRowC4 : OrderRow :=
  { id := 1, user_id := 10, round_start := 100, side := .sell, outcome := .yes,
    book_side := .ask, order_type := .limit, price := 50, stop_price := none,
    shares := 3, filled_shares := 0, remaining_shares := 3, cost_per_share := 50,
    status := .open_, created_at := 0 }

/-- Stop-limit row of user 20: buy-stop triggering at 50, limit 55, 5 shares. -/
def stopRow2C4 : OrderRow :=
  { id := 2, user_id := 20, round_start := 100, side := .buy, outcome := .yes,
    book_side := .bid, order_type := .stop_limit, price := 55, stop_price := some 50,
    shares := 5, filled_shares := 0, remaining_shares := 5, cost_per_share := 55,
    status := .stopped, created_at := 0 }

/-- Stop-limit row of user 30: sell-stop triggering at 55, limit 50, 4 shares. -/
def stopRow3C4 : OrderRow :=
  { id := 3, user_id := 30, round_start := 100, side := .sell, outcome := .yes,
    book_side := .ask, order_type := .stop_limit, price := 50, stop_price := some 55,
    shares := 4, filled_shares := 0, remaining_shares := 4, cost_per_share := 50,
    status := .stopped, created_at := 0 }

/-- In-memory stop entry of `stopRow2C4`. -/
def s1C4 : StopEntry :=
  { id := 2, userId := 20, bookSide := .bid, price := 55, stopPrice := 50,
    remainingShares := 5, costPerShare := 55, side := .buy, outcome := .yes }

/-- In-memory stop entry of `stopRow3C4`. -/
def s2C4 : StopEntry :=
  { id := 3, userId := 30, bookSide := .ask, price := 50, stopPrice := 55,
    remainingShares := 4, costPerShare := 50, side := .sell, outcome := .yes }

/-- C4 scenario: one resting ask (3 @ 50), no bids, both stops pending. -/
def stC4 : EngineState :=
  { db := { orders := [askRowC4, stopRow2C4, stopRow3C4], trades := [], positions := [],
            balances := [(10, 10000), (20, 10000), (30, 10000)],
            nextOrderId := 4, nextTradeId := 1 }
    books := [(100, { bids := [], asks := [⟨1, 10, 50, 3, 50, .ask, 0⟩] })]
    stops := [(100, [s1C4, s2C4])] }

/-- The state after one `checkStopOrders` pass on the C4 scenario. -/
def stC4After : EngineState := TradingEngine.checkStopOrders stC4 100

/-- **C4 (counterexample).** In `stC4`, user 20's buy stop (trigger 50)
fires against the best ask of 50, is activated and partially filled
(one trade of 3 shares), and its 2-share residual rests as the best bid
at 55.  That new best bid satisfies user 30's sell stop (trigger 55) —
yet the pass leaves that stop pending (`stopped`, still in the stop
list): the fill produced by a triggered order does **not** trigger
further stop orders in the same pass, contradicting the claim. -/
theorem C4_counterexample :
    stC4After.db.trades.length = 1 ∧
    (stC4After.bookFor 100).bids.head?.map (fun e => e.price) = some 55 ∧
    TradingEngine.stopTriggered
      ((stC4After.bookFor 100).bids.head?.map (fun e => e.price))
      ((stC4After.bookFor 100).asks.head?.map (fun e => e.price)) s2C4 = true ∧
    stC4After.stopsFor 100 = [s2C4] ∧
    (stC4After.db.getOrder 3).map (fun o => o.status) = some OrderStatus.stopped := by
  decide

/-! ## C2 — the share-count invariant -/

/-- The per-row share-count invariant of the claim:
`filled + remaining = shares` and `0 ≤ filled ≤ shares`. -/
def orderInv (o : OrderRow) : Prop :=
  o.filled_shares + o.remaining_shares = o.shares ∧
  0 ≤ o.filled_shares ∧ o.filled_shares ≤ o.shares

/-- Resting limit ask (3 shares at 60, user 2) for the C2 scenario. -/
def restingRowC2 : OrderRow :=
  { id := 1, user_id := 2, round_start := 100, side := .sell, outcome := .yes,
    book_side := .ask, order_type := .limit, price := 60, stop_price := none,
    shares := 3, filled_shares := 0, remaining_shares := 3, cost_per_share := 40,
    status := .open_, created_at := 0 }

/-- C2 scenario: user 1 will sweep a book holding only 3 opposing shares. -/
def stC2 : EngineState :=
  { db := { orders := [restingRowC2], trades := [], positions := [],
            balances := [(1, 10000), (2, 10000)], nextOrderId := 2, nextTradeId := 1 }
    books := [(100, { bids := [], asks := [⟨1, 2, 60, 3, 40, .ask, 0⟩] })]
    stops := [(100, [])] }

/-- **C2 (counterexample).** A market-FAK buy of 5 shares against a book
holding only 3 fills 3 and cancels the residual; the residual-cancel
UPDATE sets `remaining_shares = 0` while `filled_shares` stays 3, so the
persisted row ends with `shares = 5`, `filled = 3`, `remaining = 0` —
`filled + remaining ≠ shares`, refuting the claim for the FAK
residual-cancellation step. -/
theorem C2_counterexample :
    ((TradingEngine.placeMarketFAK stC2 1 100 .buy .yes 5 5).1.db.getOrder 2).map
        (fun o => (o.shares, o.filled_shares, o.remaining_shares)) = some (5, 3, 0) ∧
    ((TradingEngine.placeMarketFAK stC2 1 100 .buy .yes 5 5).1.db.getOrder 2).map
        (fun o => decide (o.filled_shares + o.remaining_shares = o.shares)) = some false := by
  decide

/-- **C2 (amended).** The persisted-row effects of the engine's order
UPDATEs, as issued by placement (`insertOrder`), each fill
(`updateOrderFill`), the status-only updates (user cancel, settlement
sweep, stop activation — all of the shape `status := s`), and the FAK
residual cancellation:

* insertion establishes the invariant for any non-negative share count;
* a fill of `q` shares with `0 ≤ q ≤ remaining` preserves it;
* status-only updates preserve it;
* the FAK residual cancellation always preserves `0 ≤ filled ≤ shares`,
  but preserves `filled + remaining = shares` **iff** the order had no
  remaining shares — on any partially-unfilled FAK the sum invariant is
  lost (see the counterexample). -/
theorem C2_share_invariants (p : InsertOrderParams) (cAt : Nat) (db : Db)
    (o : OrderRow) (q : Int) (s : OrderStatus) :
    (0 ≤ p.shares → orderInv (insertOrder p cAt db).1) ∧
    (orderInv o → 0 ≤ q → q ≤ o.remaining_shares → orderInv (updateOrderFillRow q o)) ∧
    (orderInv o → orderInv { o with status := s }) ∧
    (orderInv o → 0 ≤ (TradingEngine.fakResidualCancelRow o).filled_shares ∧
      (TradingEngine.fakResidualCancelRow o).filled_shares ≤
        (TradingEngine.fakResidualCancelRow o).shares) ∧
    (orderInv o →
      ((TradingEngine.fakResidualCancelRow o).filled_shares +
          (TradingEngine.fakResidualCancelRow o).remaining_shares =
        (TradingEngine.fakResidualCancelRow o).shares ↔ o.remaining_shares = 0)) := by
  refine ⟨?_, ?_, ?_, ?_, ?_⟩
  · intro h
    unfold orderInv insertOrder
    dsimp only
    omega
  · intro hinv hq0 hq
    unfold orderInv at hinv ⊢
    unfold updateOrderFillRow
    dsimp only
    omega
  · intro hinv
    unfold orderInv at hinv ⊢
    dsimp only
    omega
  · intro hinv
    unfold orderInv at hinv
    unfold TradingEngine.fakResidualCancelRow
    dsimp only
    omega
  · intro hinv
    unfold orderInv at hinv
    unfold TradingEngine.fakResidualCancelRow
    dsimp only
    omega

/-- Insert-order parameters for the C2 witness. -/
def pC2 : InsertOrderParams :=
  { userId := 1, roundStart := 100, side := .buy, outcome := .yes, bookSide := .bid,
    orderType := .limit, price := 50, stopPrice := none, shares := 5,
    costPerShare := 50, status := .open_ }

/-- A partially filled row for the C2 witness. -/
def oC2 : OrderRow :=
  { id := 7, user_id := 1, round_start := 100, side := .buy, outcome := .yes,
    book_side := .bid, order_type := .limit, price := 50, stop_price := none,
    shares := 5, filled_shares := 1, remaining_shares := 4, cost_per_share := 50,
    status := .partially_filled, created_at := 0 }

/-- Witness for `C2_share_invariants` at concrete inputs, with every
hypothesis discharged. -/
theorem C2_share_invariants_witness :
    orderInv (insertOrder pC2 0 dbEmpty).1 ∧
    orderInv (updateOrderFillRow 2 oC2) ∧
    orderInv { oC2 with status := OrderStatus.cancelled } ∧
    (0 ≤ (TradingEngine.fakResidualCancelRow oC2).filled_shares ∧
      (TradingEngine.fakResidualCancelRow oC2).filled_shares ≤
        (TradingEngine.fakResidualCancelRow oC2).shares) ∧
    ¬((TradingEngine.fakResidualCancelRow oC2).filled_shares +
        (TradingEngine.fakResidualCancelRow oC2).remaining_shares =
      (TradingEngine.fakResidualCancelRow oC2).shares) := by
  have t := C2_share_invariants pC2 0 dbEmpty oC2 2 OrderStatus.cancelled
  have hinv : orderInv oC2 := by unfold orderInv oC2; norm_num
  refine ⟨t.1 (by norm_num [pC2]), t.2.1 hinv (by norm_num) (by norm_num [oC2]),
          t.2.2.1 hinv, t.2.2.2.1 hinv, ?_⟩
  rw [t.2.2.2.2 hinv]
  norm_num [oC2]

/-! ## C3 — execution prices -/

/-- **C3.** Every trade recorded by the matching loop executes at the
resting (maker) entry's book price: for each fill there is an entry `e`
of the opposing side at the instant of match (same id and price as when
the loop reached it) such that `execPrice = e.price`, the trade's bid /
ask order ids are the incoming order and `e` in the orientation given by
the incoming side, and the bid order's book price ≥ execPrice ≥ the ask
order's book price. -/
theorem C3_matchOrder_maker_price (inId inUser : Nat) (inPrice cps : Int) (isBid : Bool)
    (rs : Nat) (remaining : Int) (opposing : List BookEntry) (db : Db) :
    ∀ t ∈ (TradingEngine.matchOrderGo inId inUser inPrice cps isBid rs
            remaining opposing db).fills,
      ∃ e ∈ opposing,
        t.price = e.price ∧
        t.bid_order_id = (if isBid then inId else e.id) ∧
        t.ask_order_id = (if isBid then e.id else inId) ∧
        (if isBid then inPrice else e.price) ≥ t.price ∧
        t.price ≥ (if isBid then e.price else inPrice) := by
  induction opposing generalizing remaining db with
  | nil =>
    intro t ht
    simp [TradingEngine.matchOrderGo] at ht
  | cons resting rest ih =>
    intro t ht
    unfold TradingEngine.matchOrderGo at ht
    by_cases h1 : remaining ≤ 0
    · rw [if_pos h1] at ht
      simp at ht
    rw [if_neg h1] at ht
    by_cases h2 : resting.userId = inUser
    · rw [if_pos h2] at ht
      dsimp only at ht
      obtain ⟨e, he, hprops⟩ := ih _ _ t ht
      exact ⟨e, List.mem_cons_of_mem _ he, hprops⟩
    rw [if_neg h2] at ht
    by_cases h3 : (if isBid then inPrice < resting.price else inPrice > resting.price)
    · rw [if_pos h3] at ht
      simp at ht
    rw [if_neg h3] at ht
    dsimp only at ht
    have hcross_bid : isBid = true → resting.price ≤ inPrice := by
      intro hb
      rw [hb] at h3
      simpa using le_of_not_lt (by simpa using h3)
    have hcross_ask : isBid = false → inPrice ≤ resting.price := by
      intro hb
      rw [hb] at h3
      simpa using le_of_not_lt (by simpa using h3)
    split at ht <;>
    · rcases List.mem_cons.mp ht with hhead | htail
      · subst hhead
        refine ⟨resting, List.mem_cons_self _ _, rfl, rfl, rfl, ?_, ?_⟩
        · cases isBid with
          | true => exact hcross_bid rfl
          | false => exact le_refl _
        · cases isBid with
          | true => exact le_refl _
          | false => exact hcross_ask rfl
      · obtain ⟨e, he, hprops⟩ := ih _ _ t htail
        exact ⟨e, List.mem_cons_of_mem _ he, hprops⟩

/-- Opposing entry for the C3 witness (ask, 3 shares at 60, user 2). -/
def eC3 : BookEntry :=
  { id := 1, userId := 2, price := 60, remainingShares := 3, costPerShare := 40,
    bookSide := .ask, createdAt := 0 }

/-- The trade produced by the C3 witness scenario. -/
def tC3 : TradeRow :=
  { id := 1, round_start := 100, bid_order_id := 2, ask_order_id := 1,
    yes_user_id := 1, no_user_id := 2, price := 60, shares := 3 }

/-- Witness for `C3_matchOrder_maker_price`: an incoming bid (order 2,
user 1, price 99) against `[eC3]` records exactly the trade `tC3`, and
the theorem instantiates at it. -/
theorem C3_matchOrder_maker_price_witness :
    ∃ e ∈ [eC3],
      tC3.price = e.price ∧
      tC3.bid_order_id = (if (true : Bool) then (2 : Nat) else e.id) ∧
      tC3.ask_order_id = (if (true : Bool) then e.id else (2 : Nat)) ∧
      (if (true : Bool) then (99 : Int) else e.price) ≥ tC3.price ∧
      tC3.price ≥ (if (true : Bool) then e.price else (99 : Int)) :=
  C3_matchOrder_maker_price 2 1 99 99 true 100 5 [eC3] dbEmpty tC3 (by decide)

/-! ## C8, C9 — aggregation -/

/-- With a non-negative weight table, every source weight is positive
(a zero or missing table entry falls back to `0.05`). -/
theorem weightFor_pos (weights : List (String × ℚ)) (name : String)
    (hw : ∀ p ∈ weights, 0 ≤ p.2) : 0 < weightFor weights name := by
  unfold weightFor
  cases hf : weights.find? (fun p => p.1 = name) with
  | none => norm_num
  | some p =>
    have hp : p ∈ weights := List.mem_of_find?_eq_some hf
    dsimp only
    by_cases h0 : p.2 = 0
    · rw [if_pos h0]
      norm_num
    · rw [if_neg h0]
      exact lt_of_le_of_ne (hw p hp) (Ne.symm h0)

/-- **C8.** On an aggregation tick, `calculateAggregate` emits a null
price exactly when no source has ever reported (the held-samples map is
empty); otherwise it emits `weightedSum / totalWeight` computed over the
newest sample of **every** held source.  No sample is excluded by age:
the result is independent of the clock reading and of every sample's
timestamp (staleness is computed only in `getStatus`, for reporting). -/
theorem C8_calculateAggregate_spec (weights : List (String × ℚ)) (prices : List PriceData)
    (now now' : Nat) (hw : ∀ p ∈ weights, 0 ≤ p.2) :
    ((calculateAggregate weights prices now).price = none ↔ prices = []) ∧
    (prices ≠ [] →
      (calculateAggregate weights prices now).price =
        some ((prices.map (fun d => d.price * weightFor weights d.exchange)).sum /
              (prices.map (fun d => weightFor weights d.exchange)).sum)) ∧
    ((calculateAggregate weights prices now).price =
      (calculateAggregate weights prices now').price) ∧
    (∀ f : PriceData → Nat,
      (calculateAggregate weights
        (prices.map (fun d => { d with timestamp := f d })) now).price =
      (calculateAggregate weights prices now).price) := by
  have hpos : prices ≠ [] →
      0 < (prices.map (fun d => weightFor weights d.exchange)).sum := by
    intro hne
    apply List.sum_pos
    · intro x hx
      obtain ⟨d, _, rfl⟩ := List.mem_map.mp hx
      exact weightFor_pos weights d.exchange hw
    · simpa using hne
  have hzero_iff : (prices.map (fun d => weightFor weights d.exchange)).sum = 0 ↔
      prices = [] := by
    constructor
    · intro h
      by_contra hne
      exact absurd h (ne_of_gt (hpos hne))
    · intro h
      simp [h]
  refine ⟨?_, ?_, ?_, ?_⟩
  · unfold calculateAggregate
    dsimp only
    by_cases hz : (prices.map (fun d => weightFor weights d.exchange)).sum = 0
    · rw [if_pos hz]
      simpa using hzero_iff.mp hz
    · rw [if_neg hz]
      dsimp only
      constructor
      · intro h
        exact absurd h (Option.some_ne_none _)
      · intro h
        exact absurd (hzero_iff.mpr h) hz
  · intro hne
    unfold calculateAggregate
    dsimp only
    rw [if_neg (fun h => hne (hzero_iff.mp h))]
  · unfold calculateAggregate
    dsimp only
    by_cases hz : (prices.map (fun d => weightFor weights d.exchange)).sum = 0
    · rw [if_pos hz, if_pos hz]
    · rw [if_neg hz, if_neg hz]
  · intro f
    have hcomp1 : ((fun d => weightFor weights d.exchange) ∘ fun d =>
        ({ exchange := d.exchange, price := d.price, timestamp := f d } : PriceData)) =
        fun d : PriceData => weightFor weights d.exchange := rfl
    have hcomp2 : ((fun d => d.price * weightFor weights d.exchange) ∘ fun d =>
        ({ exchange := d.exchange, price := d.price, timestamp := f d } : PriceData)) =
        fun d : PriceData => d.price * weightFor weights d.exchange := rfl
    unfold calculateAggregate
    dsimp only
    rw [List.map_map, List.map_map, hcomp1, hcomp2]
    by_cases hz : (prices.map (fun d => weightFor weights d.exchange)).sum = 0
    · rw [if_pos hz, if_pos hz]
    · rw [if_neg hz, if_neg hz]

/-- A sample used by the C8 witness. -/
def sampC8 : PriceData := { exchange := "binance", price := 50000, timestamp := 0 }

/-- Witness for `C8_calculateAggregate_spec` at a concrete input: one
held sample, hypotheses discharged, applying the theorem itself. -/
theorem C8_calculateAggregate_spec_witness :
    (calculateAggregate tradingWeights [sampC8] 3).price =
      some ((([sampC8] : List PriceData).map
              (fun d => d.price * weightFor tradingWeights d.exchange)).sum /
            (([sampC8] : List PriceData).map
              (fun d => weightFor tradingWeights d.exchange)).sum) :=
  (C8_calculateAggregate_spec tradingWeights [sampC8] 3 7
    (by intro p hp; simp only [tradingWeights] at hp; fin_cases hp <;> norm_num)).2.1
    (List.cons_ne_nil _ _)

/-- One sample per source of the trading weight table (weights sum to 1). -/
def elevenSources : List PriceData :=
  [{ exchange := "binance", price := 1, timestamp := 0 },
   { exchange := "bybit_usdt", price := 1, timestamp := 0 },
   { exchange := "coinbase", price := 1, timestamp := 0 },
   { exchange := "bybit_usdc", price := 1, timestamp := 0 },
   { exchange := "kraken_usdt", price := 1, timestamp := 0 },
   { exchange := "bitfinex", price := 1, timestamp := 0 },
   { exchange := "kucoin", price := 1, timestamp := 0 },
   { exchange := "gemini", price := 1, timestamp := 0 },
   { exchange := "gateio", price := 1, timestamp := 0 },
   { exchange := "cryptocom", price := 1, timestamp := 0 },
   { exchange := "kraken_usdc", price := 1, timestamp := 0 }]

/-- A sample from a source absent from every weight table. -/
def unknownSample : PriceData := { exchange := "newsource", price := 1, timestamp := 0 }

/-- **C9.** A source whose name is absent from the static weight table is
still aggregated, with the default weight `0.05`: it adds `0.05` to the
total weight and `0.05 · price` to the weighted sum.  Concretely, the
eleven weighted sources of the trading config sum to exactly 1, and
adding one unrecognised source pushes the total weight to `1.05 > 1`. -/
theorem C9_default_weight (weights : List (String × ℚ)) (name : String)
    (h : weights.find? (fun p => p.1 = name) = none)
    (prices : List PriceData) (d : PriceData) (hd : d.exchange = name) :
    weightFor weights name = 5/100 ∧
    ((prices ++ [d]).map (fun x => weightFor weights x.exchange)).sum =
      (prices.map (fun x => weightFor weights x.exchange)).sum + 5/100 ∧
    ((prices ++ [d]).map (fun x => x.price * weightFor weights x.exchange)).sum =
      (prices.map (fun x => x.price * weightFor weights x.exchange)).sum +
        d.price * (5/100) ∧
    (elevenSources.map (fun x => weightFor tradingWeights x.exchange)).sum = 1 ∧
    ((elevenSources ++ [unknownSample]).map
        (fun x => weightFor tradingWeights x.exchange)).sum = 21/20 ∧
    (1 : ℚ) < 21/20 := by
  have hwf : weightFor weights name = 5/100 := by
    unfold weightFor
    rw [h]
  have hsum11 : (elevenSources.map (fun x => weightFor tradingWeights x.exchange)).sum = 1 := by
    simp +decide [elevenSources, tradingWeights, weightFor, List.find?]
    norm_num
  have hsum12 : ((elevenSources ++ [unknownSample]).map
      (fun x => weightFor tradingWeights x.exchange)).sum = 21/20 := by
    simp +decide [elevenSources, unknownSample, tradingWeights, weightFor, List.find?]
    norm_num
  refine ⟨hwf, ?_, ?_, hsum11, hsum12, by norm_num⟩
  · rw [List.map_append, List.sum_append]
    simp [hd, hwf]
  · rw [List.map_append, List.sum_append]
    simp [hd, hwf]

/-- Witness for `C9_default_weight` at a concrete input. -/
theorem C9_default_weight_witness :
    weightFor tradingWeights "newsource" = 5/100 ∧
    ((elevenSources ++ [unknownSample]).map
        (fun x => weightFor tradingWeights x.exchange)).sum =
      (elevenSources.map (fun x => weightFor tradingWeights x.exchange)).sum + 5/100 ∧
    ((elevenSources ++ [unknownSample]).map
        (fun x => x.price * weightFor tradingWeights x.exchange)).sum =
      (elevenSources.map (fun x => x.price * weightFor tradingWeights x.exchange)).sum +
        unknownSample.price * (5/100) ∧
    (elevenSources.map (fun x => weightFor tradingWeights x.exchange)).sum = 1 ∧
    ((elevenSources ++ [unknownSample]).map
        (fun x => weightFor tradingWeights x.exchange)).sum = 21/20 ∧
    (1 : ℚ) < 21/20 :=
  C9_default_weight tradingWeights "newsource" (by decide) elevenSources unknownSample
    (by decide)

/-! ## C7 — cancellation -/

/-- Updating the row with a given id (id-preserving) commutes with the
primary-key lookup. -/
theorem find?_orders_update (l : List OrderRow) (id : Nat) (f : OrderRow → OrderRow)
    (hf : ∀ r, (f r).id = r.id) :
    (l.map (fun r => if r.id = id then f r else r)).find? (fun o => o.id = id) =
      (l.find? (fun o => o.id = id)).map f := by
  induction l with
  | nil => rfl
  | cons r rest ih =>
    by_cases hr : r.id = id
    · rw [List.map_cons, if_pos hr]
      rw [List.find?_cons_of_pos _ (by simp [hf, hr]),
          List.find?_cons_of_pos _ (by simpa using hr)]
      rfl
    · rw [List.map_cons, if_neg hr]
      rw [List.find?_cons_of_neg _ (by simpa using hr),
          List.find?_cons_of_neg _ (by simpa using hr)]
      exact ih

/-- Overwriting a present key's balance makes the lookup return it. -/
theorem find?_balances_update (l : List (Nat × Int)) (u : Nat) (v : Int)
    (h : (l.find? (fun p => p.1 = u)).isSome) :
    (l.map (fun p => if p.1 = u then (p.1, v) else p)).find? (fun p => p.1 = u) =
      some (u, v) := by
  induction l with
  | nil => simp at h
  | cons p rest ih =>
    by_cases hp : p.1 = u
    · rw [List.map_cons, if_pos hp]
      rw [List.find?_cons_of_pos _ (by simpa using hp)]
      rw [hp]
    · rw [List.find?_cons_of_neg _ (by simpa using hp)] at h
      rw [List.map_cons, if_neg hp, List.find?_cons_of_neg _ (by simpa using hp)]
      exact ih h

/-- `setBalance` on a present user stores exactly the new balance. -/
theorem balanceOf_setBalance (db : Db) (u : Nat) (v : Int)
    (h : (db.balances.find? (fun p => p.1 = u)).isSome) :
    (db.setBalance u v).balanceOf u = v := by
  unfold Db.setBalance Db.balanceOf
  dsimp only
  rw [find?_balances_update db.balances u v h]

/-- `creditBalance` on a present user adds exactly the amount. -/
theorem balanceOf_creditBalance (db : Db) (u : Nat) (amt : Int)
    (h : (db.balances.find? (fun p => p.1 = u)).isSome) :
    (creditBalance u amt db).balanceOf u = db.balanceOf u + amt := by
  unfold creditBalance
  exact balanceOf_setBalance db u (db.balanceOf u + amt) h

/-- `cancelOrderDb` never touches balances. -/
theorem cancelOrderDb_balances (orderId userId : Nat) (db : Db) :
    (cancelOrderDb orderId userId db).2.balances = db.balances := by
  unfold cancelOrderDb
  cases db.getOrder orderId with
  | none => rfl
  | some o =>
    dsimp only
    split <;> rfl

/-- A successful guarded cancel UPDATE: the row exists, is owned, and is
in a cancellable status; the returned row is the order with status
`cancelled` and the store maps that row in place. -/
theorem cancelOrderDb_success (orderId userId : Nat) (db : Db) (order : OrderRow)
    (h : db.getOrder orderId = some order) (hown : order.user_id = userId)
    (hstat : order.status = .open_ ∨ order.status = .partially_filled ∨
      order.status = .stopped) :
    cancelOrderDb orderId userId db =
      (some { order with status := OrderStatus.cancelled },
       { db with orders := db.orders.map (fun r =>
           if r.id = orderId then { order with status := OrderStatus.cancelled } else r) }) := by
  unfold cancelOrderDb
  rw [h]
  dsimp only
  rw [if_pos ⟨hown, hstat⟩]

/-- Removing an id that occurs at most once leaves no entry with it. -/
theorem removeFromBook_removes (arr : List BookEntry) (orderId : Nat)
    (hcount : arr.countP (fun e => e.id = orderId) ≤ 1) :
    ∀ e ∈ TradingEngine.removeFromBook arr orderId, e.id ≠ orderId := by
  induction arr with
  | nil => intro e he; simp [TradingEngine.removeFromBook] at he
  | cons x rest ih =>
    intro e he
    unfold TradingEngine.removeFromBook at he
    by_cases hx : x.id = orderId
    · rw [if_pos hx] at he
      rw [List.countP_cons_of_pos _ _ (by simpa using hx)] at hcount
      have hrest : rest.countP (fun e => e.id = orderId) = 0 := by omega
      intro hid
      have : 0 < rest.countP (fun e => e.id = orderId) :=
        List.countP_pos_iff.mpr ⟨e, he, by simpa using hid⟩
      omega
    · rw [if_neg hx] at he
      rcases List.mem_cons.mp he with rfl | he'
      · exact hx
      · rw [List.countP_cons_of_neg _ _ (by simpa using hx)] at hcount
        exact ih hcount e he'

/-- The side of a book an entry with the given `bookSide` rests on. -/
def bookSideEntries (b : Book) : BookSide → List BookEntry
  | .bid => b.bids
  | .ask => b.asks

/-- Updating an absent key of an association list is a no-op for the
lookup. -/
theorem find?_map_update_none {α : Type} (l : List (Nat × α)) (rs : Nat) (v : α)
    (hn : l.find? (fun p => p.1 = rs) = none) :
    (l.map (fun p => if p.1 = rs then (rs, v) else p)).find? (fun p => p.1 = rs) =
      none := by
  induction l with
  | nil => rfl
  | cons x rest ih =>
    by_cases hx : x.1 = rs
    · rw [List.find?_cons_of_pos _ (by simpa using hx)] at hn
      simp at hn
    · rw [List.find?_cons_of_neg _ (by simpa using hx)] at hn
      rw [List.map_cons, if_neg hx, List.find?_cons_of_neg _ (by simpa using hx)]
      exact ih hn

/-- `setBook` stores the book when the round is present, and is a no-op
(observed as the empty book) otherwise. -/
theorem bookFor_setBook (st : EngineState) (rs : Nat) (b : Book) :
    (st.setBook rs b).bookFor rs = b ∨
    (st.setBook rs b).bookFor rs = { bids := [], asks := [] } := by
  unfold EngineState.setBook EngineState.bookFor
  dsimp only
  by_cases h : (st.books.find? (fun p => p.1 = rs)).isSome
  · left
    rw [find?_map_update st.books rs b h]
  · right
    rw [find?_map_update_none st.books rs b (Option.not_isSome_iff_eq_none.mp h)]

/-- Replacing the row with a present id makes the lookup return the
replacement (when the replacement keeps that id). -/
theorem find?_orders_replace (l : List OrderRow) (id : Nat) (o' : OrderRow)
    (ho : o'.id = id) (h : (l.find? (fun o => o.id = id)).isSome) :
    (l.map (fun r => if r.id = id then o' else r)).find? (fun o => o.id = id) =
      some o' := by
  induction l with
  | nil => simp at h
  | cons r rest ih =>
    by_cases hr : r.id = id
    · rw [List.map_cons, if_pos hr, List.find?_cons_of_pos _ (by simpa using ho)]
    · rw [List.find?_cons_of_neg _ (by simpa using hr)] at h
      rw [List.map_cons, if_neg hr, List.find?_cons_of_neg _ (by simpa using hr)]
      exact ih h

/-- Everything `setStops` leaves observable for the round comes from the
stored list. -/
theorem stopsFor_setStops_subset (st : EngineState) (rs : Nat) (s : List StopEntry) :
    ∀ x ∈ (st.setStops rs s).stopsFor rs, x ∈ s := by
  intro x hx
  unfold EngineState.setStops EngineState.stopsFor at hx
  dsimp only at hx
  by_cases h : (st.stops.find? (fun p => p.1 = rs)).isSome
  · rw [find?_map_update st.stops rs s h] at hx
    exact hx
  · rw [find?_map_update_none st.stops rs s (Option.not_isSome_iff_eq_none.mp h)] at hx
    simp at hx


/-- After the cancel path replaces a book side by `removeFromBook`, no
entry with the cancelled id remains on that side. -/
theorem cancel_book_removal (st : EngineState) (orderId rs : Nat) (side : BookSide)
    (hcount : (bookSideEntries (st.bookFor rs) side).countP
      (fun e => e.id = orderId) ≤ 1) :
    ∀ e ∈ bookSideEntries
        ((st.setBook rs
          (if side = BookSide.bid then
            { st.bookFor rs with
              bids := TradingEngine.removeFromBook (st.bookFor rs).bids orderId }
          else
            { st.bookFor rs with
              asks := TradingEngine.removeFromBook (st.bookFor rs).asks orderId })).bookFor rs)
        side, e.id ≠ orderId := by
  cases side with
  | bid =>
    rw [if_pos rfl]
    intro e he
    rcases bookFor_setBook st rs
      { st.bookFor rs with
        bids := TradingEngine.removeFromBook (st.bookFor rs).bids orderId } with hb | hb
    · rw [hb] at he
      simp only [bookSideEntries] at he hcount
      exact removeFromBook_removes _ orderId hcount e he
    · rw [hb] at he
      simp [bookSideEntries] at he
  | ask =>
    rw [if_neg (fun h => BookSide.noConfusion h)]
    intro e he
    rcases bookFor_setBook st rs
      { st.bookFor rs with
        asks := TradingEngine.removeFromBook (st.bookFor rs).asks orderId } with hb | hb
    · rw [hb] at he
      simp only [bookSideEntries] at he hcount
      exact removeFromBook_removes _ orderId hcount e he
    · rw [hb] at he
      simp [bookSideEntries] at he

/-- After the cancel path filters the stop list, no entry with the
cancelled id remains in it. -/
theorem cancel_stops_removal (st : EngineState) (rs orderId : Nat) :
    ∀ s ∈ (st.setStops rs
        ((st.stopsFor rs).filter (fun s => s.id ≠ orderId))).stopsFor rs,
      s.id ≠ orderId := by
  intro s hs
  have hmem := List.of_mem_filter (stopsFor_setStops_subset st rs _ s hs)
  simpa using hmem

/-- **C7.** `cancelOrder`: an order that is missing, not owned, of a
market type, or not in `{open, partially_filled, stopped}` is rejected
with the corresponding error and no state change; otherwise the call
succeeds, refunds exactly `remaining · costPerShare` cents for a
non-`stopped` order and `0` for a `stopped` one, marks the row
`cancelled`, and leaves no entry with the order's id on its book side or
in the round's stop list.  (`hrem`/`hcost` are the store's row
constraints `remaining_shares ≥ 0` and `cost_per_share ≥ 0`.) -/
theorem C7_cancelOrder_spec (st : EngineState) (userId orderId : Nat) (order : OrderRow)
    (hord : st.db.getOrder orderId = some order)
    (hrem : 0 ≤ order.remaining_shares) (hcost : 0 ≤ order.cost_per_share) :
    (order.user_id ≠ userId →
      TradingEngine.cancelOrder st userId orderId = (st, .error "Not your order")) ∧
    (order.user_id = userId →
      (order.order_type = .market_fak ∨ order.order_type = .market_fok) →
      TradingEngine.cancelOrder st userId orderId =
        (st, .error "Cannot cancel market orders")) ∧
    (order.user_id = userId →
      ¬(order.order_type = .market_fak ∨ order.order_type = .market_fok) →
      ¬(order.status = .open_ ∨ order.status = .partially_filled ∨
        order.status = .stopped) →
      TradingEngine.cancelOrder st userId orderId =
        (st, .error ("Cannot cancel order with status '" ++ order.status.text ++ "'"))) ∧
    (order.user_id = userId →
      ¬(order.order_type = .market_fak ∨ order.order_type = .market_fok) →
      (order.status = .open_ ∨ order.status = .partially_filled ∨
        order.status = .stopped) →
      (TradingEngine.cancelOrder st userId orderId).2 =
        .ok { orderId := orderId,
              refund := if order.status = .stopped then 0
                        else order.remaining_shares * order.cost_per_share } ∧
      (TradingEngine.cancelOrder st userId orderId).1.db.getOrder orderId =
        some { order with status := OrderStatus.cancelled } ∧
      ((st.db.balances.find? (fun p => p.1 = userId)).isSome →
        (TradingEngine.cancelOrder st userId orderId).1.db.balanceOf userId =
          st.db.balanceOf userId +
            (if order.status = .stopped then 0
             else order.remaining_shares * order.cost_per_share)) ∧
      ((bookSideEntries (st.bookFor order.round_start) order.book_side).countP
          (fun e => e.id = orderId) ≤ 1 →
        ∀ e ∈ bookSideEntries
            ((TradingEngine.cancelOrder st userId orderId).1.bookFor order.round_start)
            order.book_side, e.id ≠ orderId) ∧
      (∀ s ∈ (TradingEngine.cancelOrder st userId orderId).1.stopsFor order.round_start,
        s.id ≠ orderId)) := by
  refine ⟨?_, ?_, ?_, ?_⟩
  · intro h1
    unfold TradingEngine.cancelOrder
    rw [hord]
    dsimp only
    rw [if_pos h1]
  · intro h1 h2
    unfold TradingEngine.cancelOrder
    rw [hord]
    dsimp only
    rw [if_neg (not_not_intro h1), if_pos h2]
  · intro h1 h2 h3
    unfold TradingEngine.cancelOrder
    rw [hord]
    dsimp only
    rw [if_neg (not_not_intro h1), if_neg h2, if_pos h3]
  · intro h1 h2 h3
    have hfound : (st.db.orders.find? (fun o => o.id = orderId)).isSome := by
      unfold Db.getOrder at hord
      rw [hord]
      rfl
    have hid : order.id = orderId := by
      unfold Db.getOrder at hord
      have := List.find?_some hord
      simpa using this
    have hsucc := cancelOrderDb_success orderId userId st.db order hord h1 h3
    have hresult :
        TradingEngine.cancelOrder st userId orderId =
          (let cancelled : OrderRow := { order with status := OrderStatus.cancelled }
           let db1 : Db := { st.db with orders := st.db.orders.map (fun r =>
             if r.id = orderId then cancelled else r) }
           let refund := if order.status ≠ .stopped then
               cancelled.remaining_shares * cancelled.cost_per_share else 0
           let db2 := if order.status ≠ .stopped ∧ refund > 0 then
               creditBalance userId refund db1 else db1
           let book := st.bookFor order.round_start
           let book' := if order.book_side = .bid then
               { book with bids := TradingEngine.removeFromBook book.bids orderId }
             else { book with asks := TradingEngine.removeFromBook book.asks orderId }
           let st' := st.setBook order.round_start book'
           let st'' := st'.setStops order.round_start
             ((st'.stopsFor order.round_start).filter (fun s => s.id ≠ orderId))
           (({ st'' with db := db2 }), .ok { orderId := orderId, refund := refund })) := by
      unfold TradingEngine.cancelOrder
      rw [hord]
      dsimp only
      rw [if_neg (not_not_intro h1), if_neg h2, if_neg (not_not_intro h3), hsucc]
    rw [hresult]
    dsimp only
    by_cases hstop : order.status = .stopped
    · have hne : ¬(order.status ≠ OrderStatus.stopped) := not_not_intro hstop
      rw [if_pos hstop, if_neg hne, if_neg (fun hc => hne hc.1)]
      refine ⟨rfl, ?_, ?_, ?_, ?_⟩
      · unfold Db.getOrder
        dsimp only
        exact find?_orders_replace st.db.orders orderId _ (by simpa using hid) hfound
      · intro hb
        unfold Db.balanceOf
        dsimp only
        rw [add_zero]
      · intro hcount
        exact cancel_book_removal st orderId order.round_start order.book_side hcount
      · exact cancel_stops_removal (st.setBook order.round_start _) order.round_start orderId
    · rw [if_neg hstop, if_pos hstop]
      by_cases hpos : order.remaining_shares * order.cost_per_share > 0
      · rw [if_pos ⟨hstop, hpos⟩]
        refine ⟨rfl, ?_, ?_, ?_, ?_⟩
        · unfold Db.getOrder creditBalance Db.setBalance
          dsimp only
          exact find?_orders_replace st.db.orders orderId _ (by simpa using hid) hfound
        · intro hb
          exact balanceOf_creditBalance _ userId _ hb
        · intro hcount
          exact cancel_book_removal st orderId order.round_start order.book_side hcount
        · exact cancel_stops_removal (st.setBook order.round_start _) order.round_start orderId
      · have hzero : order.remaining_shares * order.cost_per_share = 0 := by
          have := mul_nonneg hrem hcost
          omega
        rw [if_neg (fun hc => hpos hc.2)]
        refine ⟨rfl, ?_, ?_, ?_, ?_⟩
        · unfold Db.getOrder
          dsimp only
          exact find?_orders_replace st.db.orders orderId _ (by simpa using hid) hfound
        · intro hb
          rw [hzero, add_zero]
          rfl
        · intro hcount
          exact cancel_book_removal st orderId order.round_start order.book_side hcount
        · exact cancel_stops_removal (st.setBook order.round_start _) order.round_start orderId

/-- A cancellable partially-filled limit order for the C7 witness. -/
def ordC7 : OrderRow :=
  { id := 5, user_id := 9, round_start := 100, side := .buy, outcome := .yes,
    book_side := .bid, order_type := .limit, price := 50, stop_price := none,
    shares := 10, filled_shares := 2, remaining_shares := 8, cost_per_share := 50,
    status := .partially_filled, created_at := 0 }

/-- Engine state for the C7 witness. -/
def stC7 : EngineState :=
  { db := { orders := [ordC7], trades := [], positions := [],
            balances := [(9, 1000)], nextOrderId := 6, nextTradeId := 1 }
    books := [(100, { bids := [⟨5, 9, 50, 8, 50, .bid, 0⟩], asks := [] })]
    stops := [(100, [])] }

/-- Witness for `C7_cancelOrder_spec` at a concrete cancellable order
(success path), with every hypothesis discharged. -/
theorem C7_cancelOrder_spec_witness :
    (TradingEngine.cancelOrder stC7 9 5).2 =
      .ok { orderId := 5,
            refund := if ordC7.status = .stopped then 0
                      else ordC7.remaining_shares * ordC7.cost_per_share } ∧
    (TradingEngine.cancelOrder stC7 9 5).1.db.getOrder 5 =
      some { ordC7 with status := OrderStatus.cancelled } ∧
    (TradingEngine.cancelOrder stC7 9 5).1.db.balanceOf 9 =
      stC7.db.balanceOf 9 +
        (if ordC7.status = .stopped then 0
         else ordC7.remaining_shares * ordC7.cost_per_share) ∧
    (∀ e ∈ bookSideEntries
        ((TradingEngine.cancelOrder stC7 9 5).1.bookFor ordC7.round_start)
        ordC7.book_side, e.id ≠ 5) ∧
    (∀ s ∈ (TradingEngine.cancelOrder stC7 9 5).1.stopsFor ordC7.round_start,
      s.id ≠ 5) := by
  have t := C7_cancelOrder_spec stC7 9 5 ordC7 (by decide) (by decide) (by decide)
  have t4 := t.2.2.2 (by decide) (by decide) (by decide)
  exact ⟨t4.1, t4.2.1, t4.2.2.1 (by decide) , t4.2.2.2.1 (by decide), t4.2.2.2.2⟩

/-! ## C5, C10 — market-order lemmas -/

/-- The opposing-side shares available to a user: the sum of
`remainingShares` over entries not owned by the user (what the FOK
pre-check counts when it does not break early). -/
def sumNonOwn (userId : Nat) (l : List BookEntry) : Int :=
  ((l.filter (fun e => e.userId ≠ userId)).map (fun e => e.remainingShares)).sum

theorem sumNonOwn_nil (userId : Nat) : sumNonOwn userId [] = 0 := rfl

theorem sumNonOwn_cons_own (userId : Nat) (e : BookEntry) (l : List BookEntry)
    (h : e.userId = userId) : sumNonOwn userId (e :: l) = sumNonOwn userId l := by
  unfold sumNonOwn
  rw [List.filter_cons_of_neg (by simpa using h)]

theorem sumNonOwn_cons_other (userId : Nat) (e : BookEntry) (l : List BookEntry)
    (h : e.userId ≠ userId) :
    sumNonOwn userId (e :: l) = e.remainingShares + sumNonOwn userId l := by
  unfold sumNonOwn
  rw [List.filter_cons_of_pos (by simpa using h), List.map_cons, List.sum_cons]

theorem sumNonOwn_nonneg (userId : Nat) (l : List BookEntry)
    (h : ∀ e ∈ l, 0 ≤ e.remainingShares) : 0 ≤ sumNonOwn userId l := by
  unfold sumNonOwn
  apply List.sum_nonneg
  intro x hx
  obtain ⟨e, he, rfl⟩ := List.mem_map.mp hx
  exact h e (List.mem_of_mem_filter he)

/-- The FOK pre-check accumulator: whenever the final count is below the
requested shares, the early `break` never fired and the count is the
full non-own sum. -/
theorem fokAvailable_spec (u : Nat) (shares : Int) (l : List BookEntry) :
    ∀ acc : Int, (∀ e ∈ l, 0 ≤ e.remainingShares) →
      (acc + sumNonOwn u l < shares →
        TradingEngine.fokAvailable u shares acc l = acc + sumNonOwn u l) ∧
      (TradingEngine.fokAvailable u shares acc l < shares →
        TradingEngine.fokAvailable u shares acc l = acc + sumNonOwn u l) := by
  induction l with
  | nil =>
    intro acc _
    constructor
    · intro _
      rw [sumNonOwn_nil]
      unfold TradingEngine.fokAvailable
      omega
    · intro _
      rw [sumNonOwn_nil]
      unfold TradingEngine.fokAvailable
      omega
  | cons e rest ih =>
    intro acc hnn
    have hnnrest : ∀ x ∈ rest, 0 ≤ x.remainingShares :=
      fun x hx => hnn x (List.mem_cons_of_mem _ hx)
    have hsumrest : 0 ≤ sumNonOwn u rest := sumNonOwn_nonneg u rest hnnrest
    by_cases hown : e.userId = u
    · rw [sumNonOwn_cons_own u e rest hown]
      unfold TradingEngine.fokAvailable
      rw [if_pos hown]
      exact ih acc hnnrest
    · rw [sumNonOwn_cons_other u e rest hown]
      unfold TradingEngine.fokAvailable
      rw [if_neg hown]
      dsimp only
      by_cases hbrk : acc + e.remainingShares ≥ shares
      · rw [if_pos hbrk]
        constructor
        · intro hlt
          omega
        · intro hlt
          omega
      · rw [if_neg hbrk]
        have := ih (acc + e.remainingShares) hnnrest
        constructor
        · intro hlt
          rw [this.1 (by omega)]
          ring
        · intro hlt
          rw [this.2 hlt]
          ring

theorem getOrder_creditBalance (u : Nat) (amt : Int) (db : Db) (id : Nat) :
    (creditBalance u amt db).getOrder id = db.getOrder id := rfl

theorem getOrder_insertTrade (p : InsertTradeParams) (db : Db) (id : Nat) :
    (insertTrade p db).2.getOrder id = db.getOrder id := rfl

theorem balances_updateOrderFill (orderId : Nat) (q : Int) (db : Db) :
    (updateOrderFill orderId q db).balances = db.balances := rfl

theorem balances_insertTrade (p : InsertTradeParams) (db : Db) :
    (insertTrade p db).2.balances = db.balances := rfl

/-- Updating another order's row does not change a lookup. -/
theorem find?_orders_update_other (l : List OrderRow) (tid inId : Nat)
    (f : OrderRow → OrderRow) (hf : ∀ r, (f r).id = r.id) (hne : tid ≠ inId) :
    (l.map (fun r => if r.id = tid then f r else r)).find? (fun o => o.id = inId) =
      l.find? (fun o => o.id = inId) := by
  induction l with
  | nil => rfl
  | cons r rest ih =>
    by_cases hr : r.id = tid
    · rw [List.map_cons, if_pos hr]
      rw [List.find?_cons_of_neg _ (by simp [hf, hr]; omega),
          List.find?_cons_of_neg _ (by simp [hr]; omega)]
      exact ih
    · rw [List.map_cons, if_neg hr]
      by_cases hin : r.id = inId
      · rw [List.find?_cons_of_pos _ (by simpa using hin),
            List.find?_cons_of_pos _ (by simpa using hin)]
      · rw [List.find?_cons_of_neg _ (by simpa using hin),
            List.find?_cons_of_neg _ (by simpa using hin)]
        exact ih

/-- `updateOrderFill` on another id leaves a lookup unchanged. -/
theorem getOrder_updateOrderFill_other (tid inId : Nat) (q : Int) (db : Db)
    (hne : tid ≠ inId) :
    (updateOrderFill tid q db).getOrder inId = db.getOrder inId := by
  unfold updateOrderFill Db.getOrder
  dsimp only
  exact find?_orders_update_other db.orders tid inId (updateOrderFillRow q)
    (fun r => rfl) hne

/-- `updateOrderFill` on the looked-up id applies the row update. -/
theorem getOrder_updateOrderFill_self (inId : Nat) (q : Int) (db : Db) :
    (updateOrderFill inId q db).getOrder inId = (db.getOrder inId).map (updateOrderFillRow q) := by
  unfold updateOrderFill Db.getOrder
  dsimp only
  exact find?_orders_update db.orders inId (updateOrderFillRow q) (fun r => rfl)

/-- Against an always-crossing opposing side (as with a market order's
pseudo-price) with positive resting quantities, the matching loop fills
exactly `min remaining (sum of non-own opposing shares)`. -/
theorem matchOrderGo_filledShares (inId inUser : Nat) (inPrice cps : Int) (isBid : Bool)
    (rs : Nat) (opposing : List BookEntry) :
    ∀ (remaining : Int) (db : Db),
      0 ≤ remaining →
      (∀ e ∈ opposing, 0 < e.remainingShares) →
      (∀ e ∈ opposing, if isBid = true then ¬(inPrice < e.price) else ¬(inPrice > e.price)) →
      (TradingEngine.matchOrderGo inId inUser inPrice cps isBid rs
        remaining opposing db).filledShares = min remaining (sumNonOwn inUser opposing) := by
  induction opposing with
  | nil =>
    intro remaining db h0 _ _
    rw [sumNonOwn_nil]
    simp [TradingEngine.matchOrderGo]
    omega
  | cons resting rest ih =>
    intro remaining db h0 hpos hcross
    have hposrest : ∀ e ∈ rest, 0 < e.remainingShares :=
      fun e he => hpos e (List.mem_cons_of_mem _ he)
    have hcrossrest : ∀ e ∈ rest,
        if isBid = true then ¬(inPrice < e.price) else ¬(inPrice > e.price) :=
      fun e he => hcross e (List.mem_cons_of_mem _ he)
    have hsumrest : 0 ≤ sumNonOwn inUser rest :=
      sumNonOwn_nonneg inUser rest (fun e he => le_of_lt (hposrest e he))
    have hrpos : 0 < resting.remainingShares := hpos resting (List.mem_cons_self _ _)
    unfold TradingEngine.matchOrderGo
    by_cases hr0 : remaining ≤ 0
    · rw [if_pos hr0]
      dsimp only
      have hsum : 0 ≤ sumNonOwn inUser (resting :: rest) :=
        sumNonOwn_nonneg inUser _ (fun e he => le_of_lt (hpos e he))
      omega
    rw [if_neg hr0]
    by_cases hown : resting.userId = inUser
    · rw [if_pos hown]
      dsimp only
      rw [ih remaining db h0 hposrest hcrossrest, sumNonOwn_cons_own inUser resting rest hown]
    rw [if_neg hown]
    have hnc : ¬(if isBid then inPrice < resting.price else inPrice > resting.price) := by
      have := hcross resting (List.mem_cons_self _ _)
      cases isBid with
      | true => simpa using this
      | false => simpa using this
    rw [if_neg hnc]
    dsimp only
    rw [sumNonOwn_cons_other inUser resting rest hown]
    split
    · dsimp only
      rw [ih (remaining - min remaining resting.remainingShares) _ (by omega) hposrest
          hcrossrest]
      omega
    · dsimp only
      rw [ih (remaining - min remaining resting.remainingShares) _ (by omega) hposrest
          hcrossrest]
      omega

/-- With positive resting quantities the filled total is non-negative. -/
theorem matchOrderGo_filledShares_nonneg (inId inUser : Nat) (inPrice cps : Int)
    (isBid : Bool) (rs : Nat) (opposing : List BookEntry) :
    ∀ (remaining : Int) (db : Db),
      (∀ e ∈ opposing, 0 < e.remainingShares) →
      0 ≤ (TradingEngine.matchOrderGo inId inUser inPrice cps isBid rs
        remaining opposing db).filledShares := by
  induction opposing with
  | nil =>
    intro remaining db _
    simp [TradingEngine.matchOrderGo]
  | cons resting rest ih =>
    intro remaining db hpos
    have hposrest : ∀ e ∈ rest, 0 < e.remainingShares :=
      fun e he => hpos e (List.mem_cons_of_mem _ he)
    have hrpos : 0 < resting.remainingShares := hpos resting (List.mem_cons_self _ _)
    unfold TradingEngine.matchOrderGo
    by_cases hr0 : remaining ≤ 0
    · rw [if_pos hr0]
    rw [if_neg hr0]
    by_cases hown : resting.userId = inUser
    · rw [if_pos hown]
      exact ih remaining db hposrest
    rw [if_neg hown]
    by_cases hnc : (if isBid then inPrice < resting.price else inPrice > resting.price)
    · rw [if_pos hnc]
    rw [if_neg hnc]
    dsimp only
    split
    · dsimp only
      exact add_nonneg (by omega) (ih _ _ hposrest)
    · dsimp only
      exact add_nonneg (by omega) (ih _ _ hposrest)

/-- The cumulative effect on the incoming order's row of the per-fill
`updateOrderFill` UPDATEs issued while filling `F` shares in total. -/
def afterFills (F : Int) (row : OrderRow) : OrderRow :=
  if F = 0 then row
  else
    { row with
      filled_shares := row.filled_shares + F
      remaining_shares := row.remaining_shares - F
      status := if row.remaining_shares - F = 0 then .filled else .partially_filled }

theorem afterFills_update (q F : Int) (row : OrderRow) (hq : 0 < q) (hF : 0 ≤ F) :
    afterFills F (updateOrderFillRow q row) = afterFills (q + F) row := by
  by_cases hF0 : F = 0
  · subst hF0
    rw [add_zero]
    show afterFills 0 (updateOrderFillRow q row) = afterFills q row
    unfold afterFills
    rw [if_pos rfl, if_neg (show ¬(q = 0) by omega)]
    rfl
  · unfold afterFills
    rw [if_neg hF0, if_neg (show ¬(q + F = 0) by omega)]
    unfold updateOrderFillRow
    dsimp only
    have h1 : row.filled_shares + q + F = row.filled_shares + (q + F) := by ring
    have h2 : row.remaining_shares - q - F = row.remaining_shares - (q + F) := by ring
    rw [h1, h2]

/-- After the per-fill store writes of one iteration (optional
price-improvement credit, trade insert, resting update, incoming update)
the incoming order's row is the old row with one fill applied. -/
theorem getOrder_after_fill_updates (q : Int) (tid inId : Nat) (p : InsertTradeParams)
    (c : Prop) [Decidable c] (u : Nat) (amt : Int) (db : Db) (row : OrderRow)
    (hne : tid ≠ inId) (hrow : db.getOrder inId = some row) :
    (updateOrderFill inId q (updateOrderFill tid q
        (insertTrade p (if c then creditBalance u amt db else db)).2)).getOrder inId =
      some (updateOrderFillRow q row) := by
  rw [getOrder_updateOrderFill_self, getOrder_updateOrderFill_other tid inId q _ hne,
      getOrder_insertTrade]
  split
  · rw [getOrder_creditBalance, hrow]
    rfl
  · rw [hrow]
    rfl

/-- The matching loop's effect on the incoming order's persisted row:
it accumulates the per-fill updates (`afterFills`). -/
theorem matchOrderGo_getOrder_incoming (inId inUser : Nat) (inPrice cps : Int)
    (isBid : Bool) (rs : Nat) (opposing : List BookEntry) :
    ∀ (remaining : Int) (db : Db) (row : OrderRow),
      db.getOrder inId = some row →
      (∀ e ∈ opposing, e.id ≠ inId) →
      (∀ e ∈ opposing, 0 < e.remainingShares) →
      (TradingEngine.matchOrderGo inId inUser inPrice cps isBid rs
          remaining opposing db).db.getOrder inId =
        some (afterFills (TradingEngine.matchOrderGo inId inUser inPrice cps isBid rs
          remaining opposing db).filledShares row) := by
  induction opposing with
  | nil =>
    intro remaining db row hrow _ _
    simp [TradingEngine.matchOrderGo, afterFills, hrow]
  | cons resting rest ih =>
    intro remaining db row hrow hne hpos
    have hnerest : ∀ e ∈ rest, e.id ≠ inId :=
      fun e he => hne e (List.mem_cons_of_mem _ he)
    have hposrest : ∀ e ∈ rest, 0 < e.remainingShares :=
      fun e he => hpos e (List.mem_cons_of_mem _ he)
    have hrpos : 0 < resting.remainingShares := hpos resting (List.mem_cons_self _ _)
    have hridne : resting.id ≠ inId := hne resting (List.mem_cons_self _ _)
    unfold TradingEngine.matchOrderGo
    by_cases hr0 : remaining ≤ 0
    · rw [if_pos hr0]
      simpa [afterFills] using hrow
    rw [if_neg hr0]
    by_cases hown : resting.userId = inUser
    · rw [if_pos hown]
      dsimp only
      exact ih remaining db row hrow hnerest hposrest
    rw [if_neg hown]
    by_cases hnc : (if isBid then inPrice < resting.price else inPrice > resting.price)
    · rw [if_pos hnc]
      simpa [afterFills] using hrow
    rw [if_neg hnc]
    dsimp only
    have hq : 0 < min remaining resting.remainingShares := by omega
    split
    all_goals
      dsimp only
      rw [ih _ _ (updateOrderFillRow (min remaining resting.remainingShares) row)
            (getOrder_after_fill_updates _ _ _ _ _ _ _ _ _ hridne hrow) hnerest hposrest,
          afterFills_update _ _ row hq
            (matchOrderGo_filledShares_nonneg inId inUser inPrice cps isBid rs rest _ _
              hposrest)]

/-- Mapping a key-preserving function commutes with key lookup. -/
theorem find?_map_key_invariant {α : Type} (l : List (Nat × α)) (f : Nat × α → Nat × α)
    (hf : ∀ p, (f p).1 = p.1) (u : Nat) :
    (l.map f).find? (fun p => p.1 = u) = (l.find? (fun p => p.1 = u)).map f := by
  induction l with
  | nil => rfl
  | cons x rest ih =>
    by_cases hx : x.1 = u
    · rw [List.map_cons, List.find?_cons_of_pos _ (by simp [hf, hx]),
          List.find?_cons_of_pos _ (by simpa using hx)]
      rfl
    · rw [List.map_cons, List.find?_cons_of_neg _ (by simp [hf, hx]),
          List.find?_cons_of_neg _ (by simpa using hx)]
      exact ih


theorem balanceOf_creditBalance_ge (db : Db) (u' : Nat) (amt : Int) (u : Nat)
    (h : 0 ≤ amt) : db.balanceOf u ≤ (creditBalance u' amt db).balanceOf u := by
  unfold creditBalance Db.setBalance
  conv_rhs => unfold Db.balanceOf
  rw [find?_map_key_invariant db.balances _ (fun p => by split <;> rfl) u]
  cases hfind : db.balances.find? (fun p => p.1 = u) with
  | none =>
    simp only [Option.map_none']
    unfold Db.balanceOf
    rw [hfind]
  | some p =>
    have hp1 : p.1 = u := by simpa using List.find?_some hfind
    have hbal : db.balanceOf u = p.2 := by
      unfold Db.balanceOf
      rw [hfind]
    simp only [Option.map_some']
    by_cases hpu : p.1 = u'
    · rw [if_pos hpu]
      have huu : u = u' := hp1 ▸ hpu
      subst huu
      rw [hbal, ← hbal]
      show db.balanceOf u ≤ db.balanceOf u + amt
      omega
    · rw [if_neg hpu]
      rw [hbal]

theorem matchOrderGo_balance_mono (inId inUser : Nat) (inPrice cps : Int) (isBid : Bool)
    (rs : Nat) (opposing : List BookEntry) :
    ∀ (remaining : Int) (db : Db) (u : Nat),
      (∀ e ∈ opposing, 0 < e.remainingShares) →
      db.balanceOf u ≤ (TradingEngine.matchOrderGo inId inUser inPrice cps isBid rs
        remaining opposing db).db.balanceOf u := by
  induction opposing with
  | nil =>
    intro remaining db u _
    exact le_refl _
  | cons resting rest ih =>
    intro remaining db u hpos
    have hposrest : ∀ e ∈ rest, 0 < e.remainingShares :=
      fun e he => hpos e (List.mem_cons_of_mem _ he)
    have hrpos : 0 < resting.remainingShares := hpos resting (List.mem_cons_self _ _)
    unfold TradingEngine.matchOrderGo
    by_cases hr0 : remaining ≤ 0
    · rw [if_pos hr0]
    rw [if_neg hr0]
    by_cases hown : resting.userId = inUser
    · rw [if_pos hown]
      exact ih remaining db u hposrest
    rw [if_neg hown]
    by_cases hnc : (if isBid then inPrice < resting.price else inPrice > resting.price)
    · rw [if_pos hnc]
    rw [if_neg hnc]
    dsimp only
    have hstep : db.balanceOf u ≤
        ((if (cps - (if isBid then resting.price else 100 - resting.price)) > 0 then
            creditBalance inUser
              ((cps - (if isBid then resting.price else 100 - resting.price)) *
                (min remaining resting.remainingShares)) db
          else db)).balanceOf u := by
      by_cases hc : (cps - (if isBid then resting.price else 100 - resting.price)) > 0
      · rw [if_pos hc]
        exact balanceOf_creditBalance_ge db inUser _ u
          (mul_nonneg (le_of_lt hc) (by omega))
      · rw [if_neg hc]
    split
    all_goals
      dsimp only
      exact le_trans hstep (ih _ _ u hposrest)

theorem initRound_db (st : EngineState) (rs : Nat) : (st.initRound rs).db = st.db := by
  unfold EngineState.initRound EngineState.putStops
  split
  · rfl
  · split <;> rfl

theorem stopsFor_initRound_nil (st : EngineState) (rs : Nat) (h : st.stopsFor rs = []) :
    (st.initRound rs).stopsFor rs = [] := by
  unfold EngineState.initRound
  split
  · exact h
  · exact stopsFor_putStops _ rs []

theorem checkStopOrders_of_stops_nil (st : EngineState) (rs : Nat)
    (h : st.stopsFor rs = []) : TradingEngine.checkStopOrders st rs = st := by
  unfold TradingEngine.checkStopOrders
  rw [h]
  rfl

theorem if_checkStopOrders_nil (c : Prop) [Decidable c] (st : EngineState) (rs : Nat)
    (h : st.stopsFor rs = []) :
    (if c then TradingEngine.checkStopOrders st rs else st) = st := by
  split
  · exact checkStopOrders_of_stops_nil st rs h
  · rfl

theorem stopsFor_with_db (st : EngineState) (d : Db) (rs : Nat) :
    EngineState.stopsFor { st with db := d } rs = st.stopsFor rs := rfl

theorem deductBalance_ok_balance (u : Nat) (amt : Int) (db db' : Db)
    (h : deductBalance u amt db = .ok db') : db'.balanceOf u = db.balanceOf u - amt := by
  unfold deductBalance at h
  cases hf : db.balances.find? (fun p => p.1 = u) with
  | none => rw [hf] at h; exact Except.noConfusion h
  | some p =>
    rw [hf] at h
    dsimp only at h
    by_cases hge : p.2 ≥ amt
    · rw [if_pos hge] at h
      injection h with h
      have hbal : db.balanceOf u = p.2 := by unfold Db.balanceOf; rw [hf]
      rw [← h, balanceOf_setBalance db u _ (by rw [hf]; rfl), hbal]
    · rw [if_neg hge] at h
      exact Except.noConfusion h

theorem deductBalance_ok_of_le (u : Nat) (amt : Int) (db : Db)
    (hs : (db.balances.find? (fun p => p.1 = u)).isSome)
    (hle : amt ≤ db.balanceOf u) :
    deductBalance u amt db = .ok (db.setBalance u (db.balanceOf u - amt)) := by
  unfold deductBalance
  cases hf : db.balances.find? (fun p => p.1 = u) with
  | none => rw [hf] at hs; exact absurd hs (by simp)
  | some p =>
    have hbal : db.balanceOf u = p.2 := by unfold Db.balanceOf; rw [hf]
    dsimp only
    rw [if_pos (by omega), hbal]

theorem balanceOf_insertOrder (p : InsertOrderParams) (cAt : Nat) (db : Db) (u : Nat) :
    ((insertOrder p cAt db).2).balanceOf u = db.balanceOf u := rfl

theorem balanceOf_fakResidualCancel (oid : Nat) (db : Db) (u : Nat) :
    (TradingEngine.fakResidualCancel oid db).balanceOf u = db.balanceOf u := rfl

theorem matchOrder_balance_mono (o : OrderRow) (opp : List BookEntry) (rs : Nat)
    (db : Db) (u : Nat) (hpos : ∀ e ∈ opp, 0 < e.remainingShares) :
    db.balanceOf u ≤ (TradingEngine.matchOrder o opp rs db).db.balanceOf u := by
  unfold TradingEngine.matchOrder
  exact matchOrderGo_balance_mono o.id o.user_id o.price o.cost_per_share _ rs opp
    o.remaining_shares db u hpos

theorem normalize_pseudo_cps_nonneg (side : Side) (outcome : UserOutcome) :
    0 ≤ (TradingEngine.normalize side outcome
      (if (side = .buy ∧ outcome = .yes) ∨ (side = .sell ∧ outcome = .no) then 99
       else 1)).costPerShare := by
  cases side <;> cases outcome <;> decide

theorem balanceOf_fak_residual_ge (u : Nat) (cps unf : Int) (oid : Nat) (db : Db)
    (hcps : 0 ≤ cps) :
    db.balanceOf u ≤ (if unf > 0 then
        creditBalance u (cps * unf) (TradingEngine.fakResidualCancel oid db)
      else db).balanceOf u := by
  split
  · rename_i h
    calc db.balanceOf u = (TradingEngine.fakResidualCancel oid db).balanceOf u := rfl
    _ ≤ _ := balanceOf_creditBalance_ge _ u _ u (mul_nonneg hcps (le_of_lt h))
  · exact le_refl _

theorem placeMarketFAK_balance_ge (st : EngineState) (userId roundStart : Nat)
    (side : Side) (outcome : UserOutcome) (shares : Int) (now : Nat)
    (hbids : ∀ e ∈ (st.bookFor roundStart).bids, 0 < e.remainingShares)
    (hasks : ∀ e ∈ (st.bookFor roundStart).asks, 0 < e.remainingShares)
    (hstops : st.stopsFor roundStart = [])
    (hsh : 0 ≤ shares) :
    st.db.balanceOf userId -
        (TradingEngine.normalize side outcome
          (if (side = .buy ∧ outcome = .yes) ∨ (side = .sell ∧ outcome = .no) then 99
           else 1)).costPerShare * shares ≤
      (TradingEngine.placeMarketFAK st userId roundStart side outcome shares
        now).1.db.balanceOf userId := by
  have hcpsnn := normalize_pseudo_cps_nonneg side outcome
  have hmul := mul_nonneg hcpsnn hsh
  unfold TradingEngine.placeMarketFAK
  cases hv : TradingEngine.validateParams userId roundStart shares none with
  | some e =>
    dsimp only
    linarith
  | none =>
    dsimp only
    rw [bookFor_initRound]
    set cps := (TradingEngine.normalize side outcome
      (if (side = .buy ∧ outcome = .yes) ∨ (side = .sell ∧ outcome = .no) then 99
       else 1)).costPerShare with hcps
    cases hd : deductBalance userId (cps * shares) (st.initRound roundStart).db with
    | error e =>
      dsimp only
      rw [initRound_db]
      linarith
    | ok db1 =>
      dsimp only
      have hdb1 : db1.balanceOf userId = st.db.balanceOf userId - cps * shares := by
        have h := deductBalance_ok_balance userId (cps * shares) _ db1 hd
        rw [initRound_db] at h
        exact h
      have hoppos : ∀ e ∈ (if (TradingEngine.normalize side outcome
          (if (side = .buy ∧ outcome = .yes) ∨ (side = .sell ∧ outcome = .no) then 99
           else 1)).bookSide = BookSide.bid then (st.bookFor roundStart).asks
          else (st.bookFor roundStart).bids), 0 < e.remainingShares := by
        by_cases hb : (TradingEngine.normalize side outcome
            (if (side = .buy ∧ outcome = .yes) ∨ (side = .sell ∧ outcome = .no) then 99
             else 1)).bookSide = BookSide.bid
        · rw [if_pos hb]
          exact hasks
        · rw [if_neg hb]
          exact hbids
      rw [if_checkStopOrders_nil]
      · dsimp only
        refine le_trans ?_ (balanceOf_fak_residual_ge userId cps _ _ _ hcpsnn)
        refine le_trans ?_ (matchOrder_balance_mono _ _ _ _ _ hoppos)
        rw [balanceOf_insertOrder, hdb1]
      · rw [stopsFor_with_db, stopsFor_setBook]
        exact stopsFor_initRound_nil st roundStart hstops

theorem setBook_db (st : EngineState) (rs : Nat) (b : Book) :
    (st.setBook rs b).db = st.db := rfl

theorem ite_pair_fst_balance_ge (A : Int) (u : Nat) (c : Prop) [Decidable c]
    (p q : EngineState × Except String TradingEngine.OrderResult)
    (h1 : A ≤ p.1.db.balanceOf u) (h2 : A ≤ q.1.db.balanceOf u) :
    A ≤ (if c then p else q).1.db.balanceOf u := by
  split
  · exact h1
  · exact h2

theorem placeMarketFOK_balance_ge (st : EngineState) (userId roundStart : Nat)
    (side : Side) (outcome : UserOutcome) (shares : Int) (now : Nat)
    (hbids : ∀ e ∈ (st.bookFor roundStart).bids, 0 < e.remainingShares)
    (hasks : ∀ e ∈ (st.bookFor roundStart).asks, 0 < e.remainingShares)
    (hstops : st.stopsFor roundStart = [])
    (hsh : 0 ≤ shares) :
    st.db.balanceOf userId -
        (TradingEngine.normalize side outcome
          (if (side = .buy ∧ outcome = .yes) ∨ (side = .sell ∧ outcome = .no) then 99
           else 1)).costPerShare * shares ≤
      (TradingEngine.placeMarketFOK st userId roundStart side outcome shares
        now).1.db.balanceOf userId := by
  have hcpsnn := normalize_pseudo_cps_nonneg side outcome
  have hmul := mul_nonneg hcpsnn hsh
  unfold TradingEngine.placeMarketFOK
  cases hv : TradingEngine.validateParams userId roundStart shares none with
  | some e =>
    dsimp only
    linarith
  | none =>
    dsimp only
    rw [bookFor_initRound]
    set cps := (TradingEngine.normalize side outcome
      (if (side = .buy ∧ outcome = .yes) ∨ (side = .sell ∧ outcome = .no) then 99
       else 1)).costPerShare with hcps
    have hoppos : ∀ e ∈ (if (TradingEngine.normalize side outcome
        (if (side = .buy ∧ outcome = .yes) ∨ (side = .sell ∧ outcome = .no) then 99
         else 1)).bookSide = BookSide.bid then (st.bookFor roundStart).asks
        else (st.bookFor roundStart).bids), 0 < e.remainingShares := by
      by_cases hb : (TradingEngine.normalize side outcome
          (if (side = .buy ∧ outcome = .yes) ∨ (side = .sell ∧ outcome = .no) then 99
           else 1)).bookSide = BookSide.bid
      · rw [if_pos hb]
        exact hasks
      · rw [if_neg hb]
        exact hbids
    by_cases hliq : TradingEngine.fokAvailable userId shares 0
        (if (TradingEngine.normalize side outcome
          (if (side = .buy ∧ outcome = .yes) ∨ (side = .sell ∧ outcome = .no) then 99
           else 1)).bookSide = BookSide.bid then (st.bookFor roundStart).asks
          else (st.bookFor roundStart).bids) < shares
    · rw [if_pos hliq]
      dsimp only
      rw [initRound_db]
      linarith
    · rw [if_neg hliq]
      cases hd : deductBalance userId (cps * shares) (st.initRound roundStart).db with
      | error e =>
        dsimp only
        rw [initRound_db]
        linarith
      | ok db1 =>
        dsimp only
        have hdb1 : db1.balanceOf userId = st.db.balanceOf userId - cps * shares := by
          have h := deductBalance_ok_balance userId (cps * shares) _ db1 hd
          rw [initRound_db] at h
          exact h
        refine ite_pair_fst_balance_ge _ _ _ _ _ ?_ ?_
        · dsimp only
          rw [setBook_db, initRound_db]
          linarith
        · dsimp only
          rw [if_checkStopOrders_nil]
          · dsimp only
            refine le_trans ?_ (matchOrder_balance_mono _ _ _ _ _ hoppos)
            rw [balanceOf_insertOrder, hdb1]
          · rw [stopsFor_with_db, stopsFor_setBook]
            exact stopsFor_initRound_nil st roundStart hstops

/-- **C10.** For a market order (FAK or FOK) on the NO outcome — buy-no or
sell-no — the pseudo-price passed to `normalize` makes `costPerShare` equal
to 1 cent, so placement reserves exactly `shares` cents (`shares · 1`,
i.e. `shares / 100` dollars); matching only ever credits the taker back
(price improvement, FAK residual refunds), so across the whole placement the
placer's balance never drops by more than `shares` cents, whatever the
execution prices of the fills. -/
theorem C10_market_no_cost_per_share :
    (∀ side : Side, (TradingEngine.normalize side .no
        (if (side = .buy ∧ (UserOutcome.no = UserOutcome.yes)) ∨
            (side = .sell ∧ (UserOutcome.no = UserOutcome.no)) then 99
         else 1)).costPerShare = 1)
    ∧ ∀ (st : EngineState) (userId roundStart : Nat) (side : Side) (shares : Int)
        (now : Nat),
        (∀ e ∈ (st.bookFor roundStart).bids, 0 < e.remainingShares) →
        (∀ e ∈ (st.bookFor roundStart).asks, 0 < e.remainingShares) →
        st.stopsFor roundStart = [] →
        0 ≤ shares →
        st.db.balanceOf userId - shares ≤
          (TradingEngine.placeMarketFAK st userId roundStart side .no shares
            now).1.db.balanceOf userId ∧
        st.db.balanceOf userId - shares ≤
          (TradingEngine.placeMarketFOK st userId roundStart side .no shares
            now).1.db.balanceOf userId := by
  constructor
  · intro side
    cases side <;> decide
  · intro st userId roundStart side shares now hbids hasks hstops hsh
    have hcps : (TradingEngine.normalize side .no
        (if (side = .buy ∧ (UserOutcome.no = UserOutcome.yes)) ∨
            (side = .sell ∧ (UserOutcome.no = UserOutcome.no)) then 99
         else 1)).costPerShare = 1 := by
      cases side <;> decide
    have h1 := placeMarketFAK_balance_ge st userId roundStart side .no shares now
      hbids hasks hstops hsh
    have h2 := placeMarketFOK_balance_ge st userId roundStart side .no shares now
      hbids hasks hstops hsh
    rw [hcps, one_mul] at h1 h2
    exact ⟨h1, h2⟩

def stC10 : EngineState :=
  { db := { dbEmpty with balances := [(1, 1000)] }, books := [], stops := [] }

/-- Concrete check of C10: buy-no FAK and sell-no FOK for 5 shares from a
1000-cent balance never leave the placer more than 5 cents short. -/
theorem C10_market_no_cost_per_share_witness :
    stC10.db.balanceOf 1 - 5 ≤
      (TradingEngine.placeMarketFAK stC10 1 60000 Side.buy UserOutcome.no 5
        0).1.db.balanceOf 1 ∧
    stC10.db.balanceOf 1 - 5 ≤
      (TradingEngine.placeMarketFOK stC10 1 60000 Side.sell UserOutcome.no 5
        0).1.db.balanceOf 1 :=
  ⟨(C10_market_no_cost_per_share.2 stC10 1 60000 Side.buy 5 0 (by decide) (by decide)
      (by decide) (by decide)).1,
   (C10_market_no_cost_per_share.2 stC10 1 60000 Side.sell 5 0 (by decide) (by decide)
      (by decide) (by decide)).2⟩

theorem getOrder_insertOrder (p : InsertOrderParams) (cAt : Nat) (db : Db)
    (hfresh : db.orders.find? (fun o => o.id = db.nextOrderId) = none) :
    (insertOrder p cAt db).2.getOrder ((insertOrder p cAt db).1.id) =
      some (insertOrder p cAt db).1 := by
  unfold insertOrder Db.getOrder
  dsimp only
  rw [List.find?_append, hfresh]
  rw [List.find?_cons_of_pos _ (by simp)]
  rfl

theorem matchOrder_market_fills (o : OrderRow) (opp : List BookEntry) (rs : Nat) (db : Db)
    (hprice : o.price = if o.book_side = BookSide.bid then 99 else 1)
    (hrem : 0 ≤ o.remaining_shares)
    (hpos : ∀ e ∈ opp, 0 < e.remainingShares)
    (hrange : ∀ e ∈ opp, 1 ≤ e.price ∧ e.price ≤ 99) :
    (TradingEngine.matchOrder o opp rs db).filledShares =
      min o.remaining_shares (sumNonOwn o.user_id opp) := by
  unfold TradingEngine.matchOrder
  apply matchOrderGo_filledShares o.id o.user_id o.price o.cost_per_share _ rs opp
    o.remaining_shares db hrem hpos
  intro e he
  by_cases hb : o.book_side = BookSide.bid
  · rw [if_pos (decide_eq_true hb), hprice, if_pos hb]
    have := (hrange e he).2
    omega
  · rw [if_neg (by simpa using hb), hprice, if_neg hb]
    have := (hrange e he).1
    omega

theorem matchOrder_getOrder_incoming (o : OrderRow) (opp : List BookEntry) (rs : Nat)
    (db : Db) (hrow : db.getOrder o.id = some o)
    (hne : ∀ e ∈ opp, e.id ≠ o.id)
    (hpos : ∀ e ∈ opp, 0 < e.remainingShares) :
    (TradingEngine.matchOrder o opp rs db).db.getOrder o.id =
      some (afterFills (TradingEngine.matchOrder o opp rs db).filledShares o) := by
  unfold TradingEngine.matchOrder
  exact matchOrderGo_getOrder_incoming o.id o.user_id o.price o.cost_per_share _ rs opp
    o.remaining_shares db o hrow hne hpos

theorem validateParams_none_of (u rs : Nat) (sh : Int)
    (hu : u ≠ 0) (hrs : rs ≠ 0) (hp : 0 < sh) (hmax : sh ≤ maxSharesPerOrder) :
    TradingEngine.validateParams u rs sh none = none := by
  unfold TradingEngine.validateParams
  rw [if_neg hu, if_neg hrs, if_neg (by omega), if_neg (by omega)]

theorem insertOrder_fst_id (p : InsertOrderParams) (cAt : Nat) (db : Db) :
    (insertOrder p cAt db).1.id = db.nextOrderId := rfl

theorem insertOrder_fst_user_id (p : InsertOrderParams) (cAt : Nat) (db : Db) :
    (insertOrder p cAt db).1.user_id = p.userId := rfl

theorem insertOrder_fst_filled (p : InsertOrderParams) (cAt : Nat) (db : Db) :
    (insertOrder p cAt db).1.filled_shares = 0 := rfl

theorem insertOrder_fst_remaining (p : InsertOrderParams) (cAt : Nat) (db : Db) :
    (insertOrder p cAt db).1.remaining_shares = p.shares := rfl

/-- A fresh row (`filled_shares = 0`) that fills its entire quantity ends
filled with nothing remaining. -/
theorem afterFills_complete (F : Int) (row : OrderRow) (hF0 : F ≠ 0)
    (hrem : row.remaining_shares = F) (hfill : row.filled_shares = 0) :
    (afterFills F row).filled_shares = F ∧ (afterFills F row).remaining_shares = 0 ∧
    (afterFills F row).status = OrderStatus.filled := by
  unfold afterFills
  rw [if_neg hF0]
  refine ⟨?_, ?_, ?_⟩ <;> dsimp only
  · rw [hfill]
    exact zero_add F
  · rw [hrem]
    exact sub_self F
  · rw [hrem, sub_self]
    exact if_pos rfl

/-- **C5.** Before reserving any balance, `placeMarketFOK` walks the opposing
book side counting matchable shares and skipping the placer's own resting
entries (`sumNonOwn`); when the count falls short of the requested quantity
the call throws `Insufficient liquidity: <available> shares available, need
<shares>` with the store untouched (no order row, no trade, no balance
change — the throw happens before `BEGIN`); when the count covers the
request (and the placer can pay), the resulting order fills completely:
`filled_shares = shares`, `remaining_shares = 0`, status `filled`, and no
unfilled remainder is reported. -/
theorem C5_fok_liquidity_precheck (st : EngineState) (userId roundStart : Nat)
    (side : Side) (outcome : UserOutcome) (shares : Int) (now : Nat)
    (opp : List BookEntry)
    (huser : userId ≠ 0) (hround : roundStart ≠ 0)
    (hpos : 0 < shares) (hmax : shares ≤ maxSharesPerOrder)
    (hopp : opp = if (TradingEngine.normalize side outcome
        (if (side = .buy ∧ outcome = .yes) ∨ (side = .sell ∧ outcome = .no) then 99
         else 1)).bookSide = BookSide.bid then (st.bookFor roundStart).asks
        else (st.bookFor roundStart).bids) :
    ((∀ e ∈ opp, 0 ≤ e.remainingShares) → sumNonOwn userId opp < shares →
      TradingEngine.placeMarketFOK st userId roundStart side outcome shares now =
        (st.initRound roundStart,
         .error ("Insufficient liquidity: " ++ toString (sumNonOwn userId opp) ++
                 " shares available, need " ++ toString shares)) ∧
      (st.initRound roundStart).db = st.db) ∧
    ((∀ e ∈ opp, 0 < e.remainingShares) →
     (∀ e ∈ opp, minPrice ≤ e.price ∧ e.price ≤ maxPrice) →
     (∀ e ∈ opp, e.id ≠ st.db.nextOrderId) →
     shares ≤ sumNonOwn userId opp →
     st.db.orders.find? (fun o => o.id = st.db.nextOrderId) = none →
     (st.db.balances.find? (fun p => p.1 = userId)).isSome →
     (TradingEngine.normalize side outcome
        (if (side = .buy ∧ outcome = .yes) ∨ (side = .sell ∧ outcome = .no) then 99
         else 1)).costPerShare * shares ≤ st.db.balanceOf userId →
     ∃ stE res,
       TradingEngine.placeMarketFOK st userId roundStart side outcome shares now =
         (stE, .ok res) ∧
       res.order.filled_shares = shares ∧ res.order.remaining_shares = 0 ∧
       res.order.status = OrderStatus.filled ∧ res.unfilledShares = none) := by
  have hv := validateParams_none_of userId roundStart shares huser hround hpos hmax
  constructor
  · intro hnn hlt
    have hfa : TradingEngine.fokAvailable userId shares 0 opp =
        0 + sumNonOwn userId opp :=
      (fokAvailable_spec userId shares opp 0 hnn).1 (by omega)
    constructor
    · unfold TradingEngine.placeMarketFOK
      rw [hv]
      dsimp only
      rw [bookFor_initRound, ← hopp]
      rw [if_pos (show TradingEngine.fokAvailable userId shares 0 opp < shares by
        rw [hfa]; omega)]
      rw [hfa, zero_add]
    · exact initRound_db st roundStart
  · intro hposE hrange hne hge hfresh hbal hafford
    have hnn : ∀ e ∈ opp, 0 ≤ e.remainingShares := fun e he => le_of_lt (hposE e he)
    have hnl : ¬(TradingEngine.fokAvailable userId shares 0 opp < shares) := by
      intro h
      have h2 := (fokAvailable_spec userId shares opp 0 hnn).2 h
      omega
    have hded := deductBalance_ok_of_le userId
      ((TradingEngine.normalize side outcome
        (if (side = .buy ∧ outcome = .yes) ∨ (side = .sell ∧ outcome = .no) then 99
         else 1)).costPerShare * shares) st.db hbal hafford
    unfold TradingEngine.placeMarketFOK
    rw [hv]
    dsimp only
    rw [bookFor_initRound, ← hopp]
    rw [if_neg hnl, initRound_db, hded]
    dsimp only
    rw [matchOrder_market_fills]
    rw [insertOrder_fst_remaining, insertOrder_fst_user_id]
    dsimp only
    rw [min_eq_left hge, if_neg (lt_irrefl shares)]
    rw [matchOrder_getOrder_incoming]
    rw [Option.getD_some]
    rw [matchOrder_market_fills]
    rw [insertOrder_fst_remaining, insertOrder_fst_user_id]
    dsimp only
    rw [min_eq_left hge]
    refine ⟨_, _, rfl, ?_, ?_, ?_, ?_⟩
    · exact (afterFills_complete _ _ hpos.ne' (insertOrder_fst_remaining _ _ _)
        (insertOrder_fst_filled _ _ _)).1
    · exact (afterFills_complete _ _ hpos.ne' (insertOrder_fst_remaining _ _ _)
        (insertOrder_fst_filled _ _ _)).2.1
    · exact (afterFills_complete _ _ hpos.ne' (insertOrder_fst_remaining _ _ _)
        (insertOrder_fst_filled _ _ _)).2.2
    · rfl
    all_goals first
      | rfl
      | exact le_of_lt hpos
      | exact hposE
      | exact hrange
      | exact hne
      | exact getOrder_insertOrder _ _ _ hfresh

def askE1C5 : BookEntry :=
  { id := 11, userId := 2, price := 60, remainingShares := 10, costPerShare := 60,
    bookSide := .ask, createdAt := 0 }

def askE2C5 : BookEntry :=
  { id := 12, userId := 3, price := 61, remainingShares := 5, costPerShare := 61,
    bookSide := .ask, createdAt := 1 }

def oppC5 : List BookEntry := [askE1C5, askE2C5]

def dbC5 : Db :=
  { orders := [], trades := [], positions := [],
    balances := [(1, 10000), (2, 10000), (3, 10000)],
    nextOrderId := 13, nextTradeId := 1 }

def stC5 : EngineState :=
  { db := dbC5,
    books := [(60000, { bids := [], asks := oppC5 })],
    stops := [(60000, [])] }

/-- Concrete check of C5, the spec's own numbers: asks 10@60 and 5@61, a
`buy yes` FOK for 20 is rejected with `Insufficient liquidity: 15 shares
available, need 20` and no store change, while a FOK for 15 fills
completely. -/
theorem C5_fok_liquidity_precheck_witness :
    (TradingEngine.placeMarketFOK stC5 1 60000 Side.buy UserOutcome.yes 20 0 =
      (stC5.initRound 60000,
       Except.error ("Insufficient liquidity: " ++ toString (sumNonOwn 1 oppC5) ++
                     " shares available, need " ++ toString (20 : Int))) ∧
     (stC5.initRound 60000).db = stC5.db) ∧
    (∃ stE res,
      TradingEngine.placeMarketFOK stC5 1 60000 Side.buy UserOutcome.yes 15 0 =
        (stE, .ok res) ∧
      res.order.filled_shares = 15 ∧ res.order.remaining_shares = 0 ∧
      res.order.status = OrderStatus.filled ∧ res.unfilledShares = none) :=
  ⟨(C5_fok_liquidity_precheck stC5 1 60000 Side.buy UserOutcome.yes 20 0 oppC5
      (by decide) (by decide) (by decide) (by decide) (by decide)).1
      (by decide) (by decide),
   (C5_fok_liquidity_precheck stC5 1 60000 Side.buy UserOutcome.yes 15 0 oppC5
      (by decide) (by decide) (by decide) (by decide) (by decide)).2
      (by decide) (by decide) (by decide) (by decide) (by decide) (by decide)
      (by decide)⟩

def mktC6a : Market :=
  { minuteStart := 60000, phase := .active, priceToBeat := some 100,
    finalPrice := none, outcome := none }

def mktC6b : Market :=
  { minuteStart := 120000, phase := .provision, priceToBeat := none,
    finalPrice := none, outcome := none }

def stC6 : CtrlState :=
  { currentMinuteStart := 60000, markets := [(60000, mktC6a), (120000, mktC6b)],
    lastPrice := some 101 }

/-- Concrete check of C6: at the 120 s boundary (clock 120500) with an
active market at 60000 awaiting settlement, the tick only activates the
new market — the emitted activation is not a settlement, and indeed the
whole action list contains creations and one activation only. -/
theorem C6_checkMinuteBoundary_never_settles_witness :
    (CtrlAction.marketActivated 120000 101).isSettle = false :=
  C6_checkMinuteBoundary_never_settles stC6 120500
    (CtrlAction.marketActivated 120000 101)
    (by
      rw [show (stC6.checkMinuteBoundary 120500).2 =
            [CtrlAction.marketCreated 180000, CtrlAction.marketCreated 240000,
             CtrlAction.marketCreated 300000, CtrlAction.marketCreated 360000,
             CtrlAction.marketCreated 420000, CtrlAction.marketActivated 120000 101]
          from rfl]
      simp)
